import Mathlib

/-!
The firmware-update state machine of millionboot (`main.c`)

A shallow embedding of `src/main.c` (boot dispatcher `main`, `start_application`,
`set_timeout`, `program_page`, the timer interrupt handler) and theorems about it.

Modelling decisions, all visible in the definitions below:

* Registers and C variables are natural numbers; a value written to an 8-bit register
  is masked where the C expression could leave the 8-bit range.
* The TWI hardware is an environment.  Every evaluation of a poll condition
  `!(TWCR & (1<<TWINT))` is one `Event`: `idle` when the flag reads clear, `bus st d`
  when it reads set, and then `TWSR` reads `st` and `TWDR` reads `d` until the next poll.
* The timer interrupt is the event `tick`; it is served between two polls of the main flow.
* `start_application` ends in `jmp 0x000`, so it never returns: the state `application`
  is terminal.
* Everything the program does to the outside is appended to `log`, together with markers
  for the stores to the receive buffer, the exits of the receive loop and the entry into
  `start_application`.
-/

namespace Millionboot

/-! ## Configuration (main.c lines 31-35) -/

/-- The command byte, `#define FIRMWARE_UPDATE_COMMAND 0xAA`. -/
def FIRMWARE_UPDATE_COMMAND : Nat := 0xAA

/-- The buffer capacity, `#define INTEL_HEX_MAX_LINE_LENGTH 46`. -/
def INTEL_HEX_MAX_LINE_LENGTH : Nat := 46

/-- The macro `TIMER_ROUNDTRIPS_SECOND ((F_CPU/1024)/255)`; `F_CPU` is set by the build,
so it is a parameter here. -/
def TIMER_ROUNDTRIPS_SECOND (F_CPU : Nat) : Nat := (F_CPU / 1024) / 255

/-! ## Constants of the avr-libc headers the file includes -/

/-- Status `TW_SR_SLA_ACK` of `util/twi.h`: own address received, acknowledged. -/
def TW_SR_SLA_ACK : Nat := 0x60
/-- Status `TW_SR_GCALL_ACK` of `util/twi.h`: general call received, acknowledged. -/
def TW_SR_GCALL_ACK : Nat := 0x70
/-- Status `TW_SR_DATA_ACK` of `util/twi.h`: data received, acknowledge returned. -/
def TW_SR_DATA_ACK : Nat := 0x80
/-- Status `TW_SR_DATA_NACK` of `util/twi.h`: data received, no acknowledge returned. -/
def TW_SR_DATA_NACK : Nat := 0x88
/-- Status `TW_SR_GCALL_DATA_ACK` of `util/twi.h`: general-call data received, acknowledged. -/
def TW_SR_GCALL_DATA_ACK : Nat := 0x90
/-- Status `TW_SR_STOP` of `util/twi.h`: stop or repeated start while addressed. -/
def TW_SR_STOP : Nat := 0xA0

/-- Bit number of `TWINT` in `TWCR`. -/
def TWINT : Nat := 7
/-- Bit number of `TWEA` in `TWCR`. -/
def TWEA : Nat := 6
/-- Bit number of `TWSTO` in `TWCR`. -/
def TWSTO : Nat := 4
/-- Bit number of `TWEN` in `TWCR`. -/
def TWEN : Nat := 2
/-- Bit number of `TWGCE` in `TWAR`. -/
def TWGCE : Nat := 0
/-- Bit number of `IVCE` in `MCUCR`. -/
def IVCE : Nat := 0
/-- Bit number of `IVSEL` in `MCUCR`. -/
def IVSEL : Nat := 1
/-- Bit number of `WGM01` in `TCCR0A`. -/
def WGM01 : Nat := 1
/-- Bit number of `CS00` in `TCCR0B`. -/
def CS00 : Nat := 0
/-- Bit number of `CS02` in `TCCR0B`. -/
def CS02 : Nat := 2
/-- Bit number of `OCIE0A` in `TIMSK0`. -/
def OCIE0A : Nat := 1
/-- Bit number of the global interrupt flag `I` in `SREG`. -/
def SREG_I : Nat := 7
/-- The flash page size `SPM_PAGESIZE` of the ATmega328P, the device the header comment of
`main.c` names (128 bytes, 64 words). -/
def SPM_PAGESIZE : Nat := 128

/-- The line terminator, the character constant of line 207 (carriage return, 0x0D). -/
def CR : Nat := 13

/-- The C expression `x & ~(1<<n)` assigned to an 8-bit register. -/
def clearBit (x n : Nat) : Nat := x &&& (0xFF ^^^ (1 <<< n))

/-- The value `(1<<TWINT)|(1<<TWEN)|(1<<TWSTO)|(1<<TWEA)` written to `TWCR` at lines
154, 168, 177, 181 and 194. -/
def TWCR_RELEASE : Nat := (1 <<< TWINT) ||| (1 <<< TWEN) ||| (1 <<< TWSTO) ||| (1 <<< TWEA)

/-- The value `(1<<TWINT)|(1<<TWEN)` written to `TWCR` at lines 197 and 208. -/
def TWCR_NACK : Nat := (1 <<< TWINT) ||| (1 <<< TWEN)

/-- The value `(1<<TWINT)|(1<<TWEN)|(1<<TWEA)` written to `TWCR` at line 210. -/
def TWCR_ACK : Nat := (1 <<< TWINT) ||| (1 <<< TWEN) ||| (1 <<< TWEA)

/-! ## State -/

/-- Where the main flow stands: at one of its poll loops, or in the application. -/
inductive PC
  /-- The poll loop of line 142. -/
  | awaitBroadcast
  /-- The poll loop of line 163. -/
  | awaitCommand
  /-- The poll loop of line 195, inside `while(!upgrade_finished)`. -/
  | awaitLine
  /-- The poll loop of line 204, in the iteration of the `for` loop with index `i`. -/
  | receive (i : Nat)
  /-- After `jmp 0x000` of `start_application`. -/
  | application
  deriving DecidableEq, Repr

/-- The string literals handed to `uart_send`. -/
inductive Msg
  /-- Line 125. -/
  | loaded
  /-- Line 145. -/
  | noData
  /-- Line 152. -/
  | noGeneralCall
  /-- Line 166. -/
  | noCommand
  /-- Line 175. -/
  | wrongCommand
  /-- Line 187. -/
  | entered
  /-- Line 219, carriage return and line feed. -/
  | crlf
  deriving DecidableEq, Repr

/-- How the `for` loop of lines 203-216 is left. -/
inductive ExitKind
  /-- By the `break` of line 214. -/
  | nackBreak
  /-- By the loop condition `i < INTEL_HEX_MAX_LINE_LENGTH-1` turning false. -/
  | bound
  deriving DecidableEq, Repr

/-- The self-programming operations of `avr/boot.h` and the waits around them. -/
inductive SpmOp
  | eeprom_busy_wait
  | page_erase (address : Nat)
  | spm_busy_wait
  | page_fill (address w : Nat)
  | page_write (address : Nat)
  | rww_enable
  deriving DecidableEq, Repr

/-- One entry of the log of effects. -/
inductive Act
  /-- Call `uart_init(baud)`. -/
  | uart_init (baud : Nat)
  /-- Call `uart_send` with a string literal. -/
  | uart_send (m : Msg)
  /-- Call `uart_send(hex_receive_buffer)`, with the content of the buffer at the call. -/
  | uart_send_buffer (buf : List Nat)
  /-- A write to `MCUCR`. -/
  | MCUCR (v : Nat)
  /-- A write to `TWAR`. -/
  | TWAR (v : Nat)
  /-- A write to `TWCR`. -/
  | TWCR (v : Nat)
  /-- The assignment `hex_receive_buffer[i] = b`. -/
  | store (i b : Nat)
  /-- The `for` loop of lines 203-216 is left with index `i`. -/
  | leave (i : Nat) (k : ExitKind)
  /-- Entry into `start_application`. -/
  | start_application
  /-- Call `_delay_ms(n)`. -/
  | delay_ms (n : Nat)
  /-- A self-programming operation, with the value of `SREG` when it is issued. -/
  | spm (op : SpmOp) (sreg : Nat)
  /-- A call of the line parser declared in `hex_parse.h` with the content of the receive
  buffer.  `main.c` includes the header and calls nothing of it, so no definition of this
  file appends this entry. -/
  | parse_line (buf : List Nat)
  deriving DecidableEq, Repr

/-- The registers and variables `main.c` reads or writes, the program memory, and the log. -/
structure Sys where
  pc : PC
  MCUCR : Nat
  TWAR : Nat
  TWCR : Nat
  OCR0A : Nat
  TCCR0A : Nat
  TCCR0B : Nat
  TIMSK0 : Nat
  SREG : Nat
  device_address : Nat
  timeout_counter : Nat
  hex_receive_buffer : List Nat
  flash : Nat → Nat
  page_buffer : Nat → Nat
  log : List Act

/-- The environment's part of one step. -/
inductive Event
  /-- The interrupt `TIMER0_COMPA_vect` is served. -/
  | tick
  /-- The main flow evaluates its poll condition and reads `TWINT` clear. -/
  | idle
  /-- The main flow evaluates its poll condition and reads `TWINT` set; `TWSR` then reads
  `st` and `TWDR` reads `d`. -/
  | bus (st d : Nat)
  deriving DecidableEq, Repr

/-! ## Register writes -/

/-- Append an entry to the log. -/
def Sys.emit (s : Sys) (a : Act) : Sys := { s with log := s.log ++ [a] }

/-- A write to `MCUCR`. -/
def Sys.setMCUCR (s : Sys) (v : Nat) : Sys := { s with MCUCR := v, log := s.log ++ [Act.MCUCR v] }

/-- A write to `TWAR`. -/
def Sys.setTWAR (s : Sys) (v : Nat) : Sys := { s with TWAR := v, log := s.log ++ [Act.TWAR v] }

/-- A write to `TWCR`. -/
def Sys.setTWCR (s : Sys) (v : Nat) : Sys := { s with TWCR := v, log := s.log ++ [Act.TWCR v] }

/-! ## `start_application` (lines 47-60) -/

/-- The function `start_application`: moves the interrupt vectors back, switches the TWI
off, waits, and jumps to address 0. -/
def start_application (s : Sys) : Sys :=
  let s := s.emit Act.start_application
  let temp := s.MCUCR
  let s := s.setMCUCR (clearBit temp IVCE)
  let s := s.setMCUCR (clearBit temp IVSEL)
  let s := s.setTWAR 0x00
  let s := s.setTWCR 0x00
  let s := s.emit (Act.delay_ms 100)
  { s with pc := PC.application }

/-! ## `set_timeout` (lines 63-68) and the interrupt handler (lines 231-240) -/

/-- The function `set_timeout`. -/
def set_timeout (s : Sys) : Sys :=
  { s with
    OCR0A := 0xFF
    TCCR0A := s.TCCR0A ||| (1 <<< WGM01)
    TCCR0B := (1 <<< CS00) ||| (1 <<< CS02)
    TIMSK0 := s.TIMSK0 ||| (1 <<< OCIE0A) }

/-- The handler `ISR(TIMER0_COMPA_vect)`. -/
def ISR_TIMER0_COMPA (s : Sys) : Sys :=
  if s.timeout_counter > 0 then
    { s with timeout_counter := s.timeout_counter - 1 }
  else
    { s with TIMSK0 := clearBit s.TIMSK0 OCIE0A, TCCR0B := 0x00 }

/-! ## `program_page` (lines 74-106) -/

/-- The macro `cli()`: clears the global interrupt flag. -/
def cli (s : Sys) : Sys := { s with SREG := clearBit s.SREG SREG_I }

/-- The macro `sei()`: sets the global interrupt flag. -/
def sei (s : Sys) : Sys := { s with SREG := s.SREG ||| (1 <<< SREG_I) }

/-- Modelled from the spec: `eeprom_busy_wait` of `avr/eeprom.h` ("wait for any in-flight
non-volatile-memory write to finish"); it changes nothing the program reads. -/
def eeprom_busy_wait (s : Sys) : Sys := s.emit (Act.spm SpmOp.eeprom_busy_wait s.SREG)

/-- Modelled from the spec: `boot_spm_busy_wait` of `avr/boot.h` ("wait for the write to
complete"); it changes nothing the program reads. -/
def boot_spm_busy_wait (s : Sys) : Sys := s.emit (Act.spm SpmOp.spm_busy_wait s.SREG)

/-- Modelled from the spec: `boot_page_erase` of `avr/boot.h` ("erase the target page"):
every byte of the page that holds `address` becomes 0xFF. -/
def boot_page_erase (s : Sys) (address : Nat) : Sys :=
  { s with
    flash := fun a => if a / SPM_PAGESIZE = address / SPM_PAGESIZE then 0xFF else s.flash a
    log := s.log ++ [Act.spm (SpmOp.page_erase address) s.SREG] }

/-- Modelled from the spec: `boot_page_fill` of `avr/boot.h` ("fill the page write buffer
two bytes at a time (little-endian word packing)"): the word `w` goes to the word of the
page buffer that `address` selects, low byte first. -/
def boot_page_fill (s : Sys) (address w : Nat) : Sys :=
  let off := 2 * ((address / 2) % (SPM_PAGESIZE / 2))
  { s with
    page_buffer := fun k =>
      if k = off then w % 256 else if k = off + 1 then w / 256 % 256 else s.page_buffer k
    log := s.log ++ [Act.spm (SpmOp.page_fill address w) s.SREG] }

/-- Modelled from the spec: `boot_page_write` of `avr/boot.h` ("commit the write buffer to
the page"): programming clears bits only, so every byte of the page that holds `address`
becomes its old value AND the byte of the page buffer; the page buffer is erased. -/
def boot_page_write (s : Sys) (address : Nat) : Sys :=
  { s with
    flash := fun a =>
      if a / SPM_PAGESIZE = address / SPM_PAGESIZE then
        s.flash a &&& s.page_buffer (a % SPM_PAGESIZE)
      else s.flash a
    page_buffer := fun _ => 0xFF
    log := s.log ++ [Act.spm (SpmOp.page_write address) s.SREG] }

/-- Modelled from the spec: `boot_rww_enable` of `avr/boot.h` ("re-enable normal access to
the memory region"); it also erases the page buffer. -/
def boot_rww_enable (s : Sys) : Sys :=
  { s with
    page_buffer := fun _ => 0xFF
    log := s.log ++ [Act.spm SpmOp.rww_enable s.SREG] }

/-- The loop of lines 88-95.  `i` is the loop variable, `p` the offset the pointer `buf`
has advanced by; the first argument bounds the number of iterations. -/
def fill_loop (page : Nat) (buf : List Nat) : Nat → Nat → Nat → Sys → Sys
  | 0, _, _, s => s
  | fuel + 1, i, p, s =>
    if i < SPM_PAGESIZE then
      let w := buf.getD p 0
      let w := (w + (buf.getD (p + 1) 0 <<< 8)) % 65536
      fill_loop page buf fuel (i + 2) (p + 2) (boot_page_fill s ((page + i) % 2 ^ 32) w)
    else s

/-- The function `program_page`. -/
def program_page (s : Sys) (page : Nat) (buf : List Nat) : Sys :=
  let sreg := s.SREG
  let s := cli s
  let s := eeprom_busy_wait s
  let s := boot_page_erase s page
  let s := boot_spm_busy_wait s
  let s := fill_loop page buf SPM_PAGESIZE 0 0 s
  let s := boot_page_write s page
  let s := boot_spm_busy_wait s
  let s := boot_rww_enable s
  { s with SREG := sreg }

/-! ## `main` (lines 114-226) -/

/-- The variables with static storage as the C start-up code leaves them when `main` is
entered (lines 41-42); the counter is an 8-bit variable. -/
def crt_init (F_CPU : Nat) (s : Sys) : Sys :=
  { s with device_address := 0x00, timeout_counter := TIMER_ROUNDTRIPS_SECOND F_CPU % 256 }

/-- Lines 116-139 of `main`: everything before the first poll loop.  `eeprom0` is the byte
`eeprom_read_byte(0x00)` returns. -/
def main_entry (s : Sys) (eeprom0 : Nat) : Sys :=
  let temp := s.MCUCR
  let s := s.setMCUCR (temp ||| (1 <<< IVCE))
  let s := s.setMCUCR (temp ||| (1 <<< IVSEL))
  let s := s.emit (Act.uart_init 9600)
  let s := s.emit (Act.uart_send Msg.loaded)
  let s := sei s
  let s := { s with device_address := eeprom0 }
  let s := s.setTWAR (((s.device_address <<< 1) ||| (1 <<< TWGCE)) % 256)
  let s := s.setTWCR ((1 <<< TWEA) ||| (1 <<< TWEN))
  let s := s.setTWCR (clearBit s.TWCR TWINT)
  let s := set_timeout s
  { s with pc := PC.awaitBroadcast }

/-- Line 194 and the poll loop of line 195: the head of an iteration of
`while(!upgrade_finished)`.  `upgrade_finished` is set to 0 at line 191 and never assigned
again, so the loop condition holds every time. -/
def next_line (s : Sys) : Sys :=
  { s.setTWCR TWCR_RELEASE with pc := PC.awaitLine }

/-- Lines 218-219 and the way back to the loop head, after the `for` loop is left with
index `i`. -/
def line_done (s : Sys) (i : Nat) (k : ExitKind) : Sys :=
  let s := s.emit (Act.leave i k)
  let s := s.emit (Act.uart_send_buffer s.hex_receive_buffer)
  let s := s.emit (Act.uart_send Msg.crlf)
  next_line s

/-- Lines 205-211: the body of the `for` loop up to the test of line 213, when `TWSR`
reads `st` and `TWDR` reads `d`.  The byte line 207 reads back is the byte just stored. -/
def receive_store (s : Sys) (i st d : Nat) : Sys :=
  if st = TW_SR_DATA_ACK then
    let s := { s with
      hex_receive_buffer := s.hex_receive_buffer.set i d
      log := s.log ++ [Act.store i d] }
    if d = CR then s.setTWCR TWCR_NACK else s.setTWCR TWCR_ACK
  else s

/-- One iteration of the `for` loop of lines 203-216 after its poll has succeeded, with
the step `i++` and the loop condition that follow it. -/
def receive_iteration (s : Sys) (i st d : Nat) : Sys :=
  let s := receive_store s i st d
  if st = TW_SR_DATA_NACK then line_done s i ExitKind.nackBreak
  else if i + 1 < INTEL_HEX_MAX_LINE_LENGTH - 1 then { s with pc := PC.receive (i + 1) }
  else line_done s (i + 1) ExitKind.bound

/-- One step of the system: the interrupt handler, or the main flow from one evaluation of
a poll condition to the next. -/
def step (s : Sys) (e : Event) : Sys :=
  match s.pc, e with
  | PC.application, _ => s
  | _, Event.tick => ISR_TIMER0_COMPA s
  | PC.awaitBroadcast, Event.idle =>
    if s.timeout_counter ≤ 0 then start_application (s.emit (Act.uart_send Msg.noData))
    else s
  | PC.awaitBroadcast, Event.bus st _ =>
    if ¬ (st = TW_SR_GCALL_ACK) then
      start_application ((s.emit (Act.uart_send Msg.noGeneralCall)).setTWCR TWCR_RELEASE)
    else
      { s.setTWCR (s.TWCR ||| (1 <<< TWINT)) with pc := PC.awaitCommand }
  | PC.awaitCommand, Event.idle =>
    if s.timeout_counter ≤ 0 then
      start_application ((s.emit (Act.uart_send Msg.noCommand)).setTWCR TWCR_RELEASE)
    else s
  | PC.awaitCommand, Event.bus st d =>
    if ¬ (st = TW_SR_GCALL_DATA_ACK) ∨ d ≠ FIRMWARE_UPDATE_COMMAND then
      start_application ((s.emit (Act.uart_send Msg.wrongCommand)).setTWCR TWCR_RELEASE)
    else
      let s := s.setTWCR TWCR_RELEASE
      let s := s.emit (Act.uart_send Msg.entered)
      let s := s.setTWAR (clearBit s.TWAR TWGCE)
      next_line s
  | PC.awaitLine, Event.idle => s
  | PC.awaitLine, Event.bus st _ =>
    if st ≠ TW_SR_SLA_ACK then next_line (s.setTWCR TWCR_NACK)
    else { s with pc := PC.receive 0 }
  | PC.receive _, Event.idle => s
  | PC.receive i, Event.bus st d => receive_iteration s i st d

/-- The system after a sequence of events. -/
def run (s : Sys) (evs : List Event) : Sys := evs.foldl step s

/-- The main flow is inside `while(!upgrade_finished)` (lines 192-223). -/
def inUpdateSession : PC → Bool
  | PC.awaitLine => true
  | PC.receive _ => true
  | _ => false

/-- A state of the microcontroller after reset, before the C start-up code: registers at
their reset values, program memory erased, `buf0` in the place of the receive buffer. -/
def power_on (buf0 : List Nat) : Sys :=
  { pc := PC.awaitBroadcast, MCUCR := 0, TWAR := 0xFE, TWCR := 0, OCR0A := 0, TCCR0A := 0,
    TCCR0B := 0, TIMSK0 := 0, SREG := 0, device_address := 0, timeout_counter := 0,
    hex_receive_buffer := buf0, flash := fun _ => 0xFF, page_buffer := fun _ => 0xFF,
    log := [] }

/-- The state in which `main` reaches its first poll loop, for clock `F_CPU`, address byte
`eeprom0` and receive buffer content `buf0`. -/
def boot (F_CPU eeprom0 : Nat) (buf0 : List Nat) : Sys :=
  main_entry (crt_init F_CPU (power_on buf0)) eeprom0

/-- A state at the poll loop of line 163: a 16 MHz device with address byte 0x2A that has
seen the general call. -/
def sample_command_state : Sys :=
  run (boot 16000000 0x2A (List.replicate 46 0xFF)) [Event.bus TW_SR_GCALL_ACK 0]

/-- A state at the poll loop of line 195: `sample_command_state` after the command byte. -/
def sample_update_state : Sys :=
  run sample_command_state [Event.bus TW_SR_GCALL_DATA_ACK FIRMWARE_UPDATE_COMMAND]

/-- A state at the poll loop of line 204 with loop index 0: `sample_update_state` after its
own address was acknowledged.  The receive buffer still holds 46 bytes 0xFF. -/
def sample_line_state : Sys := run sample_update_state [Event.bus TW_SR_SLA_ACK 0]

/-- The ways the `for` loop of lines 203-216 was left, in order, as the log records them. -/
def loop_exits : List Act → List (Nat × ExitKind)
  | [] => []
  | Act.leave i k :: l => (i, k) :: loop_exits l
  | _ :: l => loop_exits l

/-- The buffer contents handed to `uart_send` at line 218, in order, as the log records
them. -/
def handed_buffers : List Act → List (List Nat)
  | [] => []
  | Act.uart_send_buffer b :: l => b :: handed_buffers l
  | _ :: l => handed_buffers l

/-- The log entries of lines 206-210 for the bytes of `l` received with status
`TW_SR_DATA_ACK` in the iterations `i`, `i+1`, ...: each byte is stored and answered. -/
def store_log : Nat → List Nat → List Act
  | _, [] => []
  | i, b :: l =>
    Act.store i b :: Act.TWCR (if b = CR then TWCR_NACK else TWCR_ACK) :: store_log (i + 1) l

/-- The line of the three bytes 'O' (79), 'K' (75) and carriage return, each delivered with
status `TW_SR_DATA_ACK`. -/
def ok_line : List Event :=
  [Event.bus TW_SR_DATA_ACK 79, Event.bus TW_SR_DATA_ACK 75, Event.bus TW_SR_DATA_ACK CR]

/-- The bytes of the flash page that starts at `p`, in order. -/
def read_page (flash : Nat → Nat) (p : Nat) : List Nat :=
  (List.range SPM_PAGESIZE).map fun k => flash (p + k)

/-- The page-fill operations `program_page` is to issue for the page at `page` and the
data `buf`: for k = 0, 1, ..., SPM_PAGESIZE/2 - 1 the word of the bytes 2k (low) and 2k+1
(high) at address `page + 2k`. -/
def fill_ops (page : Nat) (buf : List Nat) : List SpmOp :=
  (List.range (SPM_PAGESIZE / 2)).map fun k =>
    SpmOp.page_fill ((page + 2 * k) % 2 ^ 32)
      ((buf.getD (2 * k) 0 + (buf.getD (2 * k + 1) 0 <<< 8)) % 65536)

/-- The buffer contents handed to the line parser, in order, as the log records them. -/
def parser_calls : List Act → List (List Nat)
  | [] => []
  | Act.parse_line b :: l => b :: parser_calls l
  | _ :: l => parser_calls l

/-- The stores to the receive buffer (index, byte), in order, as the log records them. -/
def stores : List Act → List (Nat × Nat)
  | [] => []
  | Act.store i b :: l => (i, b) :: stores l
  | _ :: l => stores l

/-- A line of 45 bytes 'A' (65) followed by the carriage return as the 46th byte, each
delivered with status `TW_SR_DATA_ACK`. -/
def long_line : List Event :=
  (List.replicate 45 65).map (Event.bus TW_SR_DATA_ACK) ++ [Event.bus TW_SR_DATA_ACK CR]

/-- The prescaler the clock-select bits CS02:CS00 of `TCCR0B` choose for timer 0
(ATmega328P data sheet); 0 stands for a stopped or externally clocked timer. -/
def prescaler (tccr0b : Nat) : Nat :=
  match tccr0b % 8 with
  | 1 => 1
  | 2 => 8
  | 3 => 64
  | 4 => 256
  | 5 => 1024
  | _ => 0

/-- The CPU cycles between two compare-match interrupts of timer 0 in CTC mode: the timer
counts from 0 to `OCR0A`, one count every `prescaler` cycles. -/
def tick_cycles (s : Sys) : Nat := prescaler s.TCCR0B * (s.OCR0A + 1)

/-- The word `program_page` builds from the bytes `2k` and `2k+1` of `data`. -/
def fill_word (data : List Nat) (k : Nat) : Nat :=
  data.getD (2 * k) 0 + 256 * data.getD (2 * k + 1) 0

/-- C1: at the poll loop of line 163, when the poll succeeds with status `st` and data byte
`d`, the main flow enters the update session iff `st = TW_SR_GCALL_DATA_ACK` and
`d = 0xAA`; it then stands at the poll loop of line 195.  For every other pair it writes
the bus-release value to `TWCR`, calls `start_application` and ends in the application,
and neither the program memory nor the page buffer is touched: the log gains exactly the
entries listed, none of them a self-programming operation. -/
theorem check_command_dispatch (s : Sys) (st d : Nat) (h : s.pc = PC.awaitCommand) :
    (inUpdateSession (step s (Event.bus st d)).pc = true ↔
      st = TW_SR_GCALL_DATA_ACK ∧ d = FIRMWARE_UPDATE_COMMAND) ∧
    (st = TW_SR_GCALL_DATA_ACK ∧ d = FIRMWARE_UPDATE_COMMAND →
      (step s (Event.bus st d)).pc = PC.awaitLine) ∧
    (¬ (st = TW_SR_GCALL_DATA_ACK ∧ d = FIRMWARE_UPDATE_COMMAND) →
      (step s (Event.bus st d)).pc = PC.application ∧
      (step s (Event.bus st d)).log = s.log ++
        [Act.uart_send Msg.wrongCommand, Act.TWCR TWCR_RELEASE, Act.start_application,
         Act.MCUCR (clearBit s.MCUCR IVCE), Act.MCUCR (clearBit s.MCUCR IVSEL),
         Act.TWAR 0, Act.TWCR 0, Act.delay_ms 100] ∧
      (step s (Event.bus st d)).flash = s.flash ∧
      (step s (Event.bus st d)).page_buffer = s.page_buffer ∧
      (step s (Event.bus st d)).hex_receive_buffer = s.hex_receive_buffer) := by
  by_cases hc : st = TW_SR_GCALL_DATA_ACK ∧ d = FIRMWARE_UPDATE_COMMAND
  · obtain ⟨h1, h2⟩ := hc
    subst h1 h2
    simp [step, h, next_line, Sys.setTWCR, Sys.setTWAR, Sys.emit, inUpdateSession]
  · have hc2 : ¬ st = TW_SR_GCALL_DATA_ACK ∨ d ≠ FIRMWARE_UPDATE_COMMAND := by
      by_cases h1 : st = TW_SR_GCALL_DATA_ACK
      · exact Or.inr (fun h2 => hc ⟨h1, h2⟩)
      · exact Or.inl h1
    simp [step, h, hc, hc2, start_application, Sys.setTWCR, Sys.setTWAR, Sys.setMCUCR,
      Sys.emit, inUpdateSession]

/-- Witness for C1: `sample_command_state` stands at line 163; the command byte 0xAA takes
it into the update session and the byte 0x55 does not. -/
theorem check_command_dispatch_witness :
    sample_command_state.pc = PC.awaitCommand ∧
    (step sample_command_state (Event.bus 0x90 0xAA)).pc = PC.awaitLine ∧
    (step sample_command_state (Event.bus 0x90 0x55)).pc = PC.application :=
  ⟨rfl,
   (check_command_dispatch sample_command_state 0x90 0xAA rfl).2.1 ⟨rfl, rfl⟩,
   ((check_command_dispatch sample_command_state 0x90 0x55 rfl).2.2 (by decide)).1⟩

/-! ## The update session -/

/-- A step taken inside the update session ends inside it and does not call
`start_application`. -/
theorem step_in_update_session (s : Sys) (e : Event) (h : inUpdateSession s.pc = true) :
    inUpdateSession (step s e).pc = true ∧
    (step s e).log.count Act.start_application = s.log.count Act.start_application := by
  cases hpc : s.pc with
  | awaitBroadcast => simp [hpc, inUpdateSession] at h
  | awaitCommand => simp [hpc, inUpdateSession] at h
  | application => simp [hpc, inUpdateSession] at h
  | awaitLine =>
    cases e with
    | tick =>
      by_cases hc : s.timeout_counter > 0 <;>
        simp [step, hpc, ISR_TIMER0_COMPA, hc, inUpdateSession]
    | idle => simp [step, hpc, inUpdateSession]
    | bus st d =>
      by_cases hs : st = TW_SR_SLA_ACK <;>
        simp [step, hpc, hs, next_line, Sys.setTWCR, inUpdateSession, List.count_append]
  | receive i =>
    cases e with
    | tick =>
      by_cases hc : s.timeout_counter > 0 <;>
        simp [step, hpc, ISR_TIMER0_COMPA, hc, inUpdateSession]
    | idle => simp [step, hpc, inUpdateSession]
    | bus st d =>
      simp only [step, hpc, receive_iteration, receive_store, line_done, next_line,
        Sys.setTWCR, Sys.emit]
      split_ifs <;> simp [inUpdateSession, List.count_append]

/-- The update session is closed under every sequence of events. -/
theorem run_in_update_session (evs : List Event) (s : Sys)
    (h : inUpdateSession s.pc = true) :
    inUpdateSession (run s evs).pc = true ∧
    (run s evs).log.count Act.start_application = s.log.count Act.start_application := by
  induction evs generalizing s with
  | nil => exact ⟨h, rfl⟩
  | cons e evs ih =>
    have h1 := step_in_update_session s e h
    have h2 := ih (step s e) h1.1
    exact ⟨h2.1, h2.2.trans h1.2⟩

/-- C2: once the main flow is inside `while(!upgrade_finished)`, every sequence of events
(any bus statuses, any timer ticks, with any value of `timeout_counter`) leaves it inside:
the application and the two poll loops before the update session are never reached and
`start_application` is never called.  A status other than `TW_SR_SLA_ACK` at line start
writes `TWCR` twice (lines 197, 194), leaves the receive buffer alone and polls again at
line 195; a `for` loop that ends (by the break or by its bound) leads back to line 195;
and no step other than the timer interrupt depends on `timeout_counter`. -/
theorem update_session_never_left (s : Sys) (h : inUpdateSession s.pc = true) :
    (∀ evs : List Event,
      inUpdateSession (run s evs).pc = true ∧
      (run s evs).pc ≠ PC.application ∧
      (run s evs).pc ≠ PC.awaitBroadcast ∧
      (run s evs).pc ≠ PC.awaitCommand ∧
      (run s evs).log.count Act.start_application = s.log.count Act.start_application) ∧
    (∀ st d : Nat, s.pc = PC.awaitLine → st ≠ TW_SR_SLA_ACK →
      (step s (Event.bus st d)).pc = PC.awaitLine ∧
      (step s (Event.bus st d)).log = s.log ++ [Act.TWCR TWCR_NACK, Act.TWCR TWCR_RELEASE] ∧
      (step s (Event.bus st d)).hex_receive_buffer = s.hex_receive_buffer) ∧
    (∀ i st d : Nat, s.pc = PC.receive i →
      (st = TW_SR_DATA_NACK ∨ ¬ (i + 1 < INTEL_HEX_MAX_LINE_LENGTH - 1)) →
      (step s (Event.bus st d)).pc = PC.awaitLine) ∧
    (∀ (c : Nat) (e : Event), e ≠ Event.tick →
      step { s with timeout_counter := c } e = { step s e with timeout_counter := c }) := by
  refine ⟨?_, ?_, ?_, ?_⟩
  · intro evs
    obtain ⟨h1, h2⟩ := run_in_update_session evs s h
    refine ⟨h1, ?_, ?_, ?_, h2⟩ <;>
      · intro hpc
        rw [hpc] at h1
        simp [inUpdateSession] at h1
  · intro st d hpc hs
    simp [step, hpc, hs, next_line, Sys.setTWCR]
  · intro i st d hpc hdone
    simp only [step, hpc, receive_iteration, receive_store, line_done, next_line,
      Sys.setTWCR, Sys.emit]
    rcases hdone with hn | hb
    · simp [hn, TW_SR_DATA_NACK, TW_SR_DATA_ACK]
    · split_ifs <;> simp
  · intro c e he
    cases hpc : s.pc with
    | awaitBroadcast => simp [hpc, inUpdateSession] at h
    | awaitCommand => simp [hpc, inUpdateSession] at h
    | application => simp [hpc, inUpdateSession] at h
    | awaitLine =>
      cases e with
      | tick => exact absurd rfl he
      | idle => simp [step, hpc]
      | bus st d =>
        by_cases hs : st = TW_SR_SLA_ACK <;> simp [step, hpc, hs, next_line, Sys.setTWCR]
    | receive i =>
      cases e with
      | tick => exact absurd rfl he
      | idle => simp [step, hpc]
      | bus st d =>
        simp only [step, hpc, receive_iteration, receive_store, line_done, next_line,
          Sys.setTWCR, Sys.emit]
        split_ifs <;> simp

/-- Witness for C2: `sample_update_state` is inside the update session, and stays there
when the timer has run out and foreign bus traffic arrives. -/
theorem update_session_never_left_witness :
    inUpdateSession sample_update_state.pc = true ∧
    inUpdateSession (run sample_update_state
      [Event.tick, Event.idle, Event.bus 0xA0 0, Event.bus TW_SR_SLA_ACK 0,
       Event.bus TW_SR_DATA_NACK 0]).pc = true :=
  ⟨rfl, ((update_session_never_left sample_update_state rfl).1 _).1⟩

/-! ## The line-receive loop -/

theorem run_append (s : Sys) (e1 e2 : List Event) :
    run s (e1 ++ e2) = run (run s e1) e2 := by
  simp [run, List.foldl_append]

theorem run_cons (s : Sys) (e : Event) (evs : List Event) :
    run s (e :: evs) = run (step s e) evs := rfl

theorem run_nil (s : Sys) : run s [] = s := rfl

/-- At the poll of line 195 a bus event is tested for `TW_SR_SLA_ACK` (lines 196-199). -/
theorem step_at_awaitLine (s : Sys) (st d : Nat) (hpc : s.pc = PC.awaitLine) :
    step s (Event.bus st d) =
      if st ≠ TW_SR_SLA_ACK then next_line (s.setTWCR TWCR_NACK)
      else { s with pc := PC.receive 0 } := by
  simp [step, hpc]

/-- At the poll of line 204 a bus event runs one iteration of the `for` loop. -/
theorem step_at_receive (s : Sys) (i st d : Nat) (hpc : s.pc = PC.receive i) :
    step s (Event.bus st d) = receive_iteration s i st d := by
  simp [step, hpc]

/-- One iteration that receives a byte with `TW_SR_DATA_ACK` and stays in the loop. -/
theorem step_receive_ack (s : Sys) (done rest : List Nat) (r b : Nat)
    (hpc : s.pc = PC.receive done.length) (hbuf : s.hex_receive_buffer = done ++ r :: rest)
    (hlt : done.length + 1 < INTEL_HEX_MAX_LINE_LENGTH - 1) :
    (step s (Event.bus TW_SR_DATA_ACK b)).pc = PC.receive (done.length + 1) ∧
    (step s (Event.bus TW_SR_DATA_ACK b)).hex_receive_buffer = done ++ b :: rest ∧
    (step s (Event.bus TW_SR_DATA_ACK b)).log = s.log ++ store_log done.length [b] := by
  by_cases hb : b = CR <;>
    simp [step, hpc, receive_iteration, receive_store, hb, hlt, Sys.setTWCR, hbuf,
      TW_SR_DATA_ACK, TW_SR_DATA_NACK, store_log]

theorem store_log_append (l1 l2 : List Nat) : ∀ i : Nat,
    store_log i (l1 ++ l2) = store_log i l1 ++ store_log (i + l1.length) l2 := by
  induction l1 with
  | nil => intro i; simp [store_log]
  | cons b l ih => intro i; simp [store_log, ih, Nat.add_assoc, Nat.add_comm 1]

/-- Bytes received with `TW_SR_DATA_ACK` while the loop index stays below its bound are
stored one after the other, whatever their values. -/
theorem run_receive_acks (l : List Nat) :
    ∀ (s : Sys) (done rest : List Nat), s.pc = PC.receive done.length →
      s.hex_receive_buffer = done ++ rest → l.length ≤ rest.length →
      done.length + l.length < INTEL_HEX_MAX_LINE_LENGTH - 1 →
      (run s (l.map (Event.bus TW_SR_DATA_ACK))).pc = PC.receive (done.length + l.length) ∧
      (run s (l.map (Event.bus TW_SR_DATA_ACK))).hex_receive_buffer =
        done ++ l ++ rest.drop l.length ∧
      (run s (l.map (Event.bus TW_SR_DATA_ACK))).log = s.log ++ store_log done.length l := by
  induction l with
  | nil =>
    intro s done rest hpc hbuf _ _
    simp [run, store_log, hbuf, hpc]
  | cons b l ih =>
    intro s done rest hpc hbuf hlen hlt
    cases rest with
    | nil => simp at hlen
    | cons r rest =>
      simp only [List.length_cons] at hlt hlen
      obtain ⟨h1, h2, h3⟩ := step_receive_ack s done rest r b hpc hbuf (by omega)
      have h1a : (step s (Event.bus TW_SR_DATA_ACK b)).pc =
          PC.receive (done ++ [b]).length := by
        simpa using h1
      have h2a : (step s (Event.bus TW_SR_DATA_ACK b)).hex_receive_buffer =
          (done ++ [b]) ++ rest := by
        simpa using h2
      obtain ⟨k1, k2, k3⟩ := ih (step s (Event.bus TW_SR_DATA_ACK b)) (done ++ [b]) rest
        h1a h2a (by omega)
        (by simp only [List.length_append, List.length_cons, List.length_nil]; omega)
      rw [List.map_cons, run_cons]
      refine ⟨?_, ?_, ?_⟩
      · rw [k1]; simp [Nat.add_assoc, Nat.add_comm 1]
      · rw [k2]; simp
      · rw [k3, h3]; simp [store_log, Nat.add_assoc]

/-- A line without a terminator is answered with the acknowledge value only. -/
theorem store_log_no_nack (l : List Nat) (h : ∀ b ∈ l, b ≠ CR) :
    ∀ i : Nat, Act.TWCR TWCR_NACK ∉ store_log i l := by
  induction l with
  | nil => intro i; simp [store_log]
  | cons b l ih =>
    intro i
    have hb : b ≠ CR := h b (by simp)
    have hl : ∀ x ∈ l, x ≠ CR := fun x hx => h x (by simp [hx])
    have hne : TWCR_NACK ≠ TWCR_ACK := by decide
    simp [store_log, hb, hne, ih hl (i + 1)]

/-- C3, as the code behaves: when the loop of lines 203-216 starts (index 0) and the bytes
'O', 'K', carriage return arrive with status `TW_SR_DATA_ACK`, they are stored at the
indices 0, 1, 2 and the rest of the buffer keeps its content; the only stores are these
three.  The terminator does not end the loop: it is answered with the no-acknowledge value
of `TWCR` and the loop polls again with index 3.  The loop is left by the break of line 214
when that poll reads `TW_SR_DATA_NACK`; the buffer is then handed to `uart_send` as it
is. -/
theorem ok_line_received (s : Sys) (hpc : s.pc = PC.receive 0)
    (hlen : s.hex_receive_buffer.length = INTEL_HEX_MAX_LINE_LENGTH) :
    (run s ok_line).hex_receive_buffer = [79, 75, CR] ++ s.hex_receive_buffer.drop 3 ∧
    (run s ok_line).log = s.log ++
      [Act.store 0 79, Act.TWCR TWCR_ACK, Act.store 1 75, Act.TWCR TWCR_ACK,
       Act.store 2 CR, Act.TWCR TWCR_NACK] ∧
    (run s ok_line).pc = PC.receive 3 ∧
    ∀ d : Nat,
      (step (run s ok_line) (Event.bus TW_SR_DATA_NACK d)).pc = PC.awaitLine ∧
      (step (run s ok_line) (Event.bus TW_SR_DATA_NACK d)).hex_receive_buffer =
        [79, 75, CR] ++ s.hex_receive_buffer.drop 3 ∧
      (step (run s ok_line) (Event.bus TW_SR_DATA_NACK d)).log = (run s ok_line).log ++
        [Act.leave 3 ExitKind.nackBreak,
         Act.uart_send_buffer ([79, 75, CR] ++ s.hex_receive_buffer.drop 3),
         Act.uart_send Msg.crlf, Act.TWCR TWCR_RELEASE] := by
  have hrun := run_receive_acks [79, 75, CR] s [] s.hex_receive_buffer (by simpa using hpc)
    (by simp) (by simp [hlen, INTEL_HEX_MAX_LINE_LENGTH])
    (by simp [INTEL_HEX_MAX_LINE_LENGTH])
  have hev : List.map (Event.bus TW_SR_DATA_ACK) [79, 75, CR] = ok_line := rfl
  rw [hev] at hrun
  obtain ⟨h1, h2, h3⟩ := hrun
  have h2a : (run s ok_line).hex_receive_buffer =
      [79, 75, CR] ++ s.hex_receive_buffer.drop 3 := by simpa using h2
  have h1a : (run s ok_line).pc = PC.receive 3 := by simpa using h1
  refine ⟨h2a, ?_, h1a, ?_⟩
  · rw [h3]; simp [store_log, CR]
  · intro d
    simp [step, h1a, h2a, receive_iteration, receive_store, line_done, next_line,
      Sys.setTWCR, Sys.emit, TW_SR_DATA_ACK, TW_SR_DATA_NACK]

/-- Witness for C3: `sample_line_state` stands at the first poll of the loop with a buffer
of 46 bytes; after the three bytes the loop is still running, with index 3. -/
theorem ok_line_received_witness :
    sample_line_state.pc = PC.receive 0 ∧
    sample_line_state.hex_receive_buffer.length = INTEL_HEX_MAX_LINE_LENGTH ∧
    (run sample_line_state ok_line).pc = PC.receive 3 :=
  ⟨rfl, rfl, (ok_line_received sample_line_state rfl rfl).2.2.1⟩

/-- C3, counterexample to the claim as stated: after the three bytes of `ok_line` the loop
has not been left (it polls with index 3), and when the sender then ends the transaction
(status `TW_SR_STOP`, which persists because `TWCR` is not written) the loop is left only
when its index reaches the bound 45, not on the terminator byte. -/
theorem ok_line_ends_at_loop_bound :
    (run sample_line_state ok_line).pc = PC.receive 3 ∧
    loop_exits (run sample_line_state ok_line).log = [] ∧
    loop_exits (run sample_line_state
      (ok_line ++ List.replicate 42 (Event.bus TW_SR_STOP 0))).log = [(45, ExitKind.bound)] ∧
    (run sample_line_state
      (ok_line ++ List.replicate 41 (Event.bus TW_SR_STOP 0))).pc = PC.receive 44 := by
  refine ⟨rfl, rfl, rfl, rfl⟩

/-- C4, the code at the failing input: the buffer holds 46 bytes 0xFF when the line 'O',
'K', carriage return arrives and the next byte is answered with `TW_SR_DATA_NACK`.  The
buffer handed to `uart_send` at line 218 is 'O', 'K', carriage return and 43 bytes 0xFF:
no byte of it is 0, the loop never wrote a terminating NUL.  The same holds when the loop
is left by its bound: with the status `TW_SR_SLA_ACK` persisting through the 45 polls the
buffer is handed over as it was, 46 bytes 0xFF. -/
theorem handed_buffer_without_nul :
    handed_buffers (run sample_line_state (ok_line ++ [Event.bus TW_SR_DATA_NACK 10])).log =
      [79 :: 75 :: 13 :: List.replicate 43 0xFF] ∧
    0 ∉ (79 :: 75 :: 13 :: List.replicate 43 0xFF) ∧
    loop_exits (run sample_line_state (ok_line ++ [Event.bus TW_SR_DATA_NACK 10])).log =
      [(3, ExitKind.nackBreak)] ∧
    handed_buffers (run sample_line_state
      (List.replicate 45 (Event.bus TW_SR_SLA_ACK 0))).log = [List.replicate 46 0xFF] ∧
    0 ∉ List.replicate 46 0xFF := by
  refine ⟨rfl, by decide, rfl, rfl, by decide⟩

/-- C5: when the loop of lines 203-216 starts (index 0) and 45 bytes other than the
terminator arrive with status `TW_SR_DATA_ACK`, they are stored in order at the indices
0..44 and index 45 keeps its content; every byte is answered with the acknowledge value
(never the no-acknowledge value of the terminator path); the loop is left with index 45 by
its bound, not by the break; the main flow is back at line 195, and a 46th byte leaves the
buffer as it is. -/
theorem full_line_ends_at_bound (s : Sys) (bytes : List Nat) (b46 : Nat)
    (hpc : s.pc = PC.receive 0)
    (hlen : s.hex_receive_buffer.length = INTEL_HEX_MAX_LINE_LENGTH)
    (hn : bytes.length = INTEL_HEX_MAX_LINE_LENGTH - 1) (hcr : ∀ b ∈ bytes, b ≠ CR) :
    (run s (bytes.map (Event.bus TW_SR_DATA_ACK))).hex_receive_buffer =
      bytes ++ s.hex_receive_buffer.drop 45 ∧
    (run s (bytes.map (Event.bus TW_SR_DATA_ACK))).log = s.log ++ store_log 0 bytes ++
      [Act.leave 45 ExitKind.bound,
       Act.uart_send_buffer (bytes ++ s.hex_receive_buffer.drop 45),
       Act.uart_send Msg.crlf, Act.TWCR TWCR_RELEASE] ∧
    Act.TWCR TWCR_NACK ∉ store_log 0 bytes ∧
    (run s (bytes.map (Event.bus TW_SR_DATA_ACK))).pc = PC.awaitLine ∧
    (run s (bytes.map (Event.bus TW_SR_DATA_ACK) ++
      [Event.bus TW_SR_DATA_ACK b46])).hex_receive_buffer =
      bytes ++ s.hex_receive_buffer.drop 45 := by
  have hne : bytes ≠ [] := by
    intro h0; simp [h0, INTEL_HEX_MAX_LINE_LENGTH] at hn
  obtain ⟨init, last, rfl⟩ : ∃ init last, bytes = init ++ [last] :=
    ⟨bytes.dropLast, bytes.getLast hne, (List.dropLast_append_getLast hne).symm⟩
  have hin : init.length = 44 := by
    simp [INTEL_HEX_MAX_LINE_LENGTH] at hn; omega
  have hlast : last ≠ CR := hcr last (by simp)
  obtain ⟨h1, h2, h3⟩ := run_receive_acks init s [] s.hex_receive_buffer
    (by simpa using hpc) (by simp)
    (by simp [hlen, hin, INTEL_HEX_MAX_LINE_LENGTH])
    (by simp [hin, INTEL_HEX_MAX_LINE_LENGTH])
  obtain ⟨r, rest, hdrop⟩ : ∃ r rest, s.hex_receive_buffer.drop 44 = r :: rest := by
    cases hd : s.hex_receive_buffer.drop 44 with
    | nil =>
      have := congrArg List.length hd
      simp [hlen, INTEL_HEX_MAX_LINE_LENGTH] at this
    | cons r rest => exact ⟨r, rest, rfl⟩
  have hdrop45 : s.hex_receive_buffer.drop 45 = rest := by
    have h := congrArg (List.drop 1) hdrop
    simpa [List.drop_drop] using h
  simp only [List.nil_append, List.length_nil, Nat.zero_add, hin, hdrop] at h1 h2 h3
  have hfin : step (run s (init.map (Event.bus TW_SR_DATA_ACK)))
      (Event.bus TW_SR_DATA_ACK last) =
      line_done (receive_store (run s (init.map (Event.bus TW_SR_DATA_ACK))) 44
        TW_SR_DATA_ACK last) 45 ExitKind.bound := by
    have hne1 : ¬ (TW_SR_DATA_ACK = TW_SR_DATA_NACK) := by decide
    rw [step_at_receive _ 44 _ _ h1]
    simp [receive_iteration, hne1, INTEL_HEX_MAX_LINE_LENGTH]
  have hset : (init ++ r :: rest).set 44 last = init ++ last :: rest := by
    rw [← hin]; simp
  have hrunall : run s ((init ++ [last]).map (Event.bus TW_SR_DATA_ACK)) =
      line_done (receive_store (run s (init.map (Event.bus TW_SR_DATA_ACK))) 44
        TW_SR_DATA_ACK last) 45 ExitKind.bound := by
    rw [List.map_append, run_append, ← hfin]; rfl
  have hbuf : (line_done (receive_store (run s (init.map (Event.bus TW_SR_DATA_ACK))) 44
      TW_SR_DATA_ACK last) 45 ExitKind.bound).hex_receive_buffer =
      init ++ [last] ++ s.hex_receive_buffer.drop 45 := by
    simp [line_done, next_line, receive_store, Sys.setTWCR, Sys.emit, hlast, h2, hset,
      hdrop45]
  refine ⟨?_, ?_, store_log_no_nack _ hcr 0, ?_, ?_⟩
  · rw [hrunall, hbuf]
  · rw [hrunall]
    simp [line_done, next_line, receive_store, Sys.setTWCR, Sys.emit, hlast, h2, h3, hset,
      hdrop45, store_log_append, store_log, hin]
  · rw [hrunall]
    simp [line_done, next_line, receive_store, Sys.setTWCR, Sys.emit, hlast]
  · rw [run_append, hrunall, run_cons]
    have hpcl : (line_done (receive_store (run s (init.map (Event.bus TW_SR_DATA_ACK))) 44
        TW_SR_DATA_ACK last) 45 ExitKind.bound).pc = PC.awaitLine := by
      simp [line_done, next_line, receive_store, Sys.setTWCR, Sys.emit, hlast]
    have hne2 : TW_SR_DATA_ACK ≠ TW_SR_SLA_ACK := by decide
    rw [run_nil, step_at_awaitLine _ _ _ hpcl, ← hbuf]
    simp [next_line, Sys.setTWCR, hne2]

/-- Witness for C5: from `sample_line_state`, the 45 bytes 'A' (65) are all stored and a
46th is not. -/
theorem full_line_ends_at_bound_witness :
    sample_line_state.pc = PC.receive 0 ∧
    sample_line_state.hex_receive_buffer.length = INTEL_HEX_MAX_LINE_LENGTH ∧
    (List.replicate 45 65).length = INTEL_HEX_MAX_LINE_LENGTH - 1 ∧
    (∀ b ∈ List.replicate 45 65, b ≠ CR) ∧
    (run sample_line_state
      ((List.replicate 45 65).map (Event.bus TW_SR_DATA_ACK))).pc = PC.awaitLine :=
  ⟨rfl, rfl, rfl, by decide,
   (full_line_ends_at_bound sample_line_state (List.replicate 45 65) 66 rfl rfl rfl
     (by decide)).2.2.2.1⟩

/-! ## `program_page` -/

theorem land_ff (b : Nat) (h : b < 256) : 0xFF &&& b = b := by
  rw [Nat.land_comm]
  exact Nat.and_pow_two_sub_one_of_lt_two_pow (n := 8) h

/-- The fill loop touches the page buffer and the log only. -/
theorem fill_loop_frame (page : Nat) (buf : List Nat) :
    ∀ (fuel i p : Nat) (s : Sys),
      (fill_loop page buf fuel i p s).flash = s.flash ∧
      (fill_loop page buf fuel i p s).SREG = s.SREG ∧
      (fill_loop page buf fuel i p s).timeout_counter = s.timeout_counter := by
  intro fuel
  induction fuel with
  | zero => intro i p s; simp [fill_loop]
  | succ n ih =>
    intro i p s
    unfold fill_loop
    by_cases h : i < SPM_PAGESIZE
    · rw [if_pos h]
      obtain ⟨h1, h2, h3⟩ := ih (i + 2) (p + 2)
        (boot_page_fill s ((page + i) % 2 ^ 32)
          ((buf.getD p 0 + (buf.getD (p + 1) 0 <<< 8)) % 65536))
      exact ⟨h1.trans rfl, h2.trans rfl, h3.trans rfl⟩
    · rw [if_neg h]
      exact ⟨rfl, rfl, rfl⟩

/-- After the fill loop the page buffer holds the data bytes from the loop variable on. -/
theorem fill_loop_page_buffer (page : Nat) (buf : List Nat)
    (hp : page % SPM_PAGESIZE = 0) (hb : ∀ k, buf.getD k 0 < 256) :
    ∀ (fuel i : Nat) (s : Sys), i % 2 = 0 → SPM_PAGESIZE ≤ i + 2 * fuel →
      ∀ k, k < SPM_PAGESIZE →
        (fill_loop page buf fuel i i s).page_buffer k =
          if k < i then s.page_buffer k else buf.getD k 0 := by
  intro fuel
  induction fuel with
  | zero =>
    intro i s _ hfuel k hk
    have : k < i := by omega
    simp [fill_loop, this]
  | succ n ih =>
    intro i s hi hfuel k hk
    unfold fill_loop
    by_cases h : i < SPM_PAGESIZE
    · rw [if_pos h, ih (i + 2) _ (by omega) (by omega) k hk]
      have h1 := hb i
      have h2 := hb (i + 1)
      have hoff : 2 * (((page + i) % 2 ^ 32 / 2) % (SPM_PAGESIZE / 2)) = i := by
        simp only [SPM_PAGESIZE] at h hp ⊢
        norm_num
        omega
      simp only [boot_page_fill, hoff, Nat.shiftLeft_eq]
      by_cases hk1 : k = i
      · have hlt2 : k < i + 2 := by omega
        have hlt : ¬ k < i := by omega
        rw [if_pos hlt2, if_pos hk1, if_neg hlt, hk1]
        omega
      · by_cases hk2 : k = i + 1
        · have hlt2 : k < i + 2 := by omega
          have hlt : ¬ k < i := by omega
          rw [if_pos hlt2, if_neg hk1, if_pos hk2, if_neg hlt, hk2]
          omega
        · by_cases hlt : k < i
          · have hlt2 : k < i + 2 := by omega
            rw [if_pos hlt2, if_neg hk1, if_neg hk2, if_pos hlt]
          · have hlt2 : ¬ k < i + 2 := by omega
            rw [if_neg hlt2, if_neg hlt]
    · have : k < i := by omega
      rw [if_neg h, if_pos this]

theorem getD_lt_of_bytes (data : List Nat) (h : ∀ b ∈ data, b < 256) (k : Nat) :
    data.getD k 0 < 256 := by
  by_cases hk : k < data.length
  · rw [List.getD_eq_getElem _ _ hk]
    exact h _ (List.getElem_mem _)
  · rw [List.getD_eq_default _ _ (by omega)]
    decide

/-- After `program_page` the bytes of the page at `p` are the data bytes, and every other
page is as before. -/
theorem program_page_flash (s : Sys) (p : Nat) (data : List Nat)
    (hp : p % SPM_PAGESIZE = 0) (hbytes : ∀ b ∈ data, b < 256) :
    (∀ k, k < SPM_PAGESIZE → (program_page s p data).flash (p + k) = data.getD k 0) ∧
    (∀ a, a / SPM_PAGESIZE ≠ p / SPM_PAGESIZE →
      (program_page s p data).flash a = s.flash a) := by
  have hb := getD_lt_of_bytes data hbytes
  constructor
  · intro k hk
    have hpb := fill_loop_page_buffer p data hp hb SPM_PAGESIZE 0
      (boot_spm_busy_wait (boot_page_erase (eeprom_busy_wait (cli s)) p)) rfl
      (by omega) k hk
    have hfl := (fill_loop_frame p data SPM_PAGESIZE 0 0
      (boot_spm_busy_wait (boot_page_erase (eeprom_busy_wait (cli s)) p))).1
    have hdiv : (p + k) / SPM_PAGESIZE = p / SPM_PAGESIZE := by
      simp only [SPM_PAGESIZE] at hk hp ⊢; omega
    have hmod : (p + k) % SPM_PAGESIZE = k := by
      simp only [SPM_PAGESIZE] at hk hp ⊢; omega
    simp only [Nat.not_lt_zero, if_false] at hpb
    simp only [program_page, boot_rww_enable, boot_spm_busy_wait, boot_page_write, Sys.emit,
      hdiv, hmod, if_true]
    simp only [boot_spm_busy_wait, Sys.emit] at hpb hfl
    rw [hpb, hfl]
    simp only [boot_page_erase, hdiv, if_true]
    exact land_ff _ (hb k)
  · intro a ha
    have hfl := (fill_loop_frame p data SPM_PAGESIZE 0 0
      (boot_spm_busy_wait (boot_page_erase (eeprom_busy_wait (cli s)) p))).1
    simp only [boot_spm_busy_wait, Sys.emit] at hfl
    simp only [program_page, boot_rww_enable, boot_spm_busy_wait, boot_page_write, Sys.emit,
      ha, if_false]
    rw [hfl]
    simp [boot_page_erase, ha, eeprom_busy_wait, cli, Sys.emit]

theorem read_page_eq (flash : Nat → Nat) (p : Nat) (data : List Nat)
    (hlen : data.length = SPM_PAGESIZE)
    (h : ∀ k, k < SPM_PAGESIZE → flash (p + k) = data.getD k 0) :
    read_page flash p = data := by
  apply List.ext_getElem
  · simp [read_page, hlen]
  · intro n h1 h2
    have hn : n < SPM_PAGESIZE := by simpa [read_page] using h1
    simp only [read_page, List.getElem_map, List.getElem_range]
    rw [h n hn, List.getD_eq_getElem _ _ h2]

/-- The fill loop, started at word `j`, logs the page fills of the words `j` to
SPM_PAGESIZE/2 - 1, in order. -/
theorem fill_loop_log (page : Nat) (buf : List Nat) :
    ∀ (fuel j : Nat) (s : Sys), SPM_PAGESIZE / 2 ≤ j + fuel → j ≤ SPM_PAGESIZE / 2 →
      (fill_loop page buf fuel (2 * j) (2 * j) s).log = s.log ++
        ((List.range' j (SPM_PAGESIZE / 2 - j)).map fun k =>
          Act.spm (SpmOp.page_fill ((page + 2 * k) % 2 ^ 32)
            ((buf.getD (2 * k) 0 + (buf.getD (2 * k + 1) 0 <<< 8)) % 65536)) s.SREG) := by
  intro fuel
  induction fuel with
  | zero =>
    intro j s h1 h2
    have : SPM_PAGESIZE / 2 - j = 0 := by omega
    simp [fill_loop, this]
  | succ n ih =>
    intro j s h1 h2
    unfold fill_loop
    by_cases h : 2 * j < SPM_PAGESIZE
    · have hj : j < SPM_PAGESIZE / 2 := by simp only [SPM_PAGESIZE] at h ⊢; omega
      have e1 : 2 * j + 2 = 2 * (j + 1) := by omega
      have e2 : SPM_PAGESIZE / 2 - j = (SPM_PAGESIZE / 2 - (j + 1)) + 1 := by omega
      rw [if_pos h, e1, ih (j + 1) _ (by omega) (by omega), e2, List.range'_succ]
      simp [boot_page_fill]
    · have hj : SPM_PAGESIZE / 2 - j = 0 := by simp only [SPM_PAGESIZE] at h ⊢; omega
      rw [if_neg h, hj]
      simp

/-- C6: for every page-aligned address `p` and every buffer `data` of exactly
SPM_PAGESIZE bytes, after `program_page(p, data)` the flash byte at `p + k` is `data[k]`
for every `k < SPM_PAGESIZE`, so the page read back is `data`; and after a second call
with the same `p` and `data` the page read back is `data` again. -/
theorem program_page_idempotent (s : Sys) (p : Nat) (data : List Nat)
    (hp : p % SPM_PAGESIZE = 0) (hlen : data.length = SPM_PAGESIZE)
    (hbytes : ∀ b ∈ data, b < 256) :
    (∀ k, k < SPM_PAGESIZE → (program_page s p data).flash (p + k) = data.getD k 0) ∧
    read_page (program_page s p data).flash p = data ∧
    (∀ k, k < SPM_PAGESIZE →
      (program_page (program_page s p data) p data).flash (p + k) = data.getD k 0) ∧
    read_page (program_page (program_page s p data) p data).flash p = data := by
  have h1 := (program_page_flash s p data hp hbytes).1
  have h2 := (program_page_flash (program_page s p data) p data hp hbytes).1
  exact ⟨h1, read_page_eq _ p data hlen h1, h2, read_page_eq _ p data hlen h2⟩

/-- Witness for C6: the page at address 256 of a device after reset, programmed twice with
128 bytes 0x5A. -/
theorem program_page_idempotent_witness :
    256 % SPM_PAGESIZE = 0 ∧ (List.replicate 128 0x5A).length = SPM_PAGESIZE ∧
    (∀ b ∈ List.replicate 128 0x5A, b < 256) ∧
    read_page (program_page (program_page (power_on []) 256 (List.replicate 128 0x5A)) 256
      (List.replicate 128 0x5A)).flash 256 = List.replicate 128 0x5A :=
  ⟨rfl, by simp [SPM_PAGESIZE], by simp,
   (program_page_idempotent (power_on []) 256 (List.replicate 128 0x5A) rfl
     (by simp [SPM_PAGESIZE]) (by simp)).2.2.2⟩

/-- C7: for every value of `SREG` at entry, `program_page` returns with `SREG` equal to
its entry value; the value `SREG` has after `cli()` has the global interrupt flag clear;
and every operation between `cli()` and the restore (the waits, the page erase, each of the
page fills, the page write, the RWW re-enable, exactly these and in this order) is issued
with `SREG` at that value. -/
theorem program_page_keeps_interrupts_off (s : Sys) (page : Nat) (buf : List Nat) :
    (program_page s page buf).SREG = s.SREG ∧
    (clearBit s.SREG SREG_I).testBit SREG_I = false ∧
    (program_page s page buf).log = s.log ++
      (([SpmOp.eeprom_busy_wait, SpmOp.page_erase page, SpmOp.spm_busy_wait] ++
        fill_ops page buf ++
        [SpmOp.page_write page, SpmOp.spm_busy_wait, SpmOp.rww_enable]).map
        fun op => Act.spm op (clearBit s.SREG SREG_I)) := by
  refine ⟨by simp only [program_page], ?_, ?_⟩
  · show (s.SREG &&& 127).testBit 7 = false
    rw [Nat.testBit_and]
    have h7 : Nat.testBit 127 7 = false := by decide
    rw [h7, Bool.and_false]
  · have hl := fill_loop_log page buf SPM_PAGESIZE 0
      (boot_spm_busy_wait (boot_page_erase (eeprom_busy_wait (cli s)) page))
      (by simp [SPM_PAGESIZE]) (by simp)
    have hs := (fill_loop_frame page buf SPM_PAGESIZE 0 0
      (boot_spm_busy_wait (boot_page_erase (eeprom_busy_wait (cli s)) page))).2.1
    simp only [Nat.mul_zero] at hl
    simp only [program_page, boot_rww_enable, boot_spm_busy_wait, boot_page_write, Sys.emit]
    simp only [boot_spm_busy_wait, Sys.emit] at hl hs
    rw [hl, hs]
    simp [boot_page_erase, eeprom_busy_wait, cli, Sys.emit, fill_ops, List.range_eq_range',
      List.map_map, Function.comp_def]

/-! ## The watchdog -/

/-- No step of the main flow writes `timeout_counter`. -/
theorem step_keeps_counter (s : Sys) (e : Event) (he : e ≠ Event.tick) :
    (step s e).timeout_counter = s.timeout_counter := by
  cases hpc : s.pc <;> cases e <;>
    first
    | exact absurd rfl he
    | (simp only [step, hpc, start_application, next_line, line_done, receive_iteration,
        receive_store, Sys.setTWCR, Sys.setTWAR, Sys.setMCUCR, Sys.emit] <;>
       (try split_ifs) <;> rfl)

/-- The interrupt handler never increases `timeout_counter`. -/
theorem ISR_counter_le (s : Sys) :
    (ISR_TIMER0_COMPA s).timeout_counter ≤ s.timeout_counter := by
  by_cases h : s.timeout_counter > 0 <;> simp [ISR_TIMER0_COMPA, h]

theorem step_counter_le (s : Sys) (e : Event) :
    (step s e).timeout_counter ≤ s.timeout_counter := by
  by_cases he : e = Event.tick
  · subst he
    cases hpc : s.pc <;> simp [step, hpc, ISR_counter_le]
  · exact Nat.le_of_eq (step_keeps_counter s e he)

theorem run_counter_le (evs : List Event) :
    ∀ s : Sys, (run s evs).timeout_counter ≤ s.timeout_counter := by
  induction evs with
  | nil => intro s; exact Nat.le_refl _
  | cons e evs ih => intro s; exact Nat.le_trans (ih (step s e)) (step_counter_le s e)

/-- C8: one timer tick (the handler `ISR(TIMER0_COMPA_vect)`) turns a counter `c > 0`
into `c - 1` and touches nothing of the timer; at `c = 0` it leaves the counter 0, clears
the compare-interrupt enable bit and stops timer 0.  No step of the main flow and none of
`set_timeout`, `start_application`, `main`'s entry code and `program_page` writes the
counter.  Hence over every sequence of ticks and dispatcher steps the counter never
increases, and once it is zero it stays zero. -/
theorem timeout_counter_never_increases :
    (∀ s : Sys, 0 < s.timeout_counter →
      (ISR_TIMER0_COMPA s).timeout_counter = s.timeout_counter - 1 ∧
      (ISR_TIMER0_COMPA s).TIMSK0 = s.TIMSK0 ∧
      (ISR_TIMER0_COMPA s).TCCR0B = s.TCCR0B) ∧
    (∀ s : Sys, s.timeout_counter = 0 →
      (ISR_TIMER0_COMPA s).timeout_counter = 0 ∧
      (ISR_TIMER0_COMPA s).TIMSK0 = clearBit s.TIMSK0 OCIE0A ∧
      (ISR_TIMER0_COMPA s).TIMSK0.testBit OCIE0A = false ∧
      (ISR_TIMER0_COMPA s).TCCR0B = 0) ∧
    (∀ (s : Sys) (e : Event), e ≠ Event.tick →
      (step s e).timeout_counter = s.timeout_counter) ∧
    (∀ s : Sys, (set_timeout s).timeout_counter = s.timeout_counter) ∧
    (∀ s : Sys, (start_application s).timeout_counter = s.timeout_counter) ∧
    (∀ (s : Sys) (eeprom0 : Nat), (main_entry s eeprom0).timeout_counter = s.timeout_counter) ∧
    (∀ (s : Sys) (page : Nat) (buf : List Nat),
      (program_page s page buf).timeout_counter = s.timeout_counter) ∧
    (∀ (s : Sys) (evs : List Event), (run s evs).timeout_counter ≤ s.timeout_counter) ∧
    (∀ (s : Sys) (evs : List Event), s.timeout_counter = 0 →
      (run s evs).timeout_counter = 0) := by
  refine ⟨?_, ?_, step_keeps_counter, fun _ => rfl, fun _ => rfl, fun _ _ => rfl, ?_,
    fun s evs => run_counter_le evs s, ?_⟩
  · intro s h
    simp [ISR_TIMER0_COMPA, h]
  · intro s h
    have h0 : ¬ s.timeout_counter > 0 := by omega
    refine ⟨by simp [ISR_TIMER0_COMPA, h], by simp [ISR_TIMER0_COMPA, h], ?_,
      by simp [ISR_TIMER0_COMPA, h]⟩
    simp only [ISR_TIMER0_COMPA, h0, if_false]
    show (s.TIMSK0 &&& 253).testBit 1 = false
    rw [Nat.testBit_and]
    have h1 : Nat.testBit 253 1 = false := by decide
    rw [h1, Bool.and_false]
  · intro s page buf
    have h := (fill_loop_frame page buf SPM_PAGESIZE 0 0
      (boot_spm_busy_wait (boot_page_erase (eeprom_busy_wait (cli s)) page))).2.2
    simp only [boot_spm_busy_wait, Sys.emit] at h
    simp only [program_page, boot_rww_enable, boot_spm_busy_wait, boot_page_write, Sys.emit]
    rw [h]
    rfl
  · intro s evs h
    have := run_counter_le evs s
    omega

/-- Witness for C8: from the state `main` starts its first poll loop in on a 16 MHz device
(counter 61), three ticks give 58, and 61 ticks and more give 0. -/
theorem timeout_counter_never_increases_witness :
    (ISR_TIMER0_COMPA (boot 16000000 0x2A [])).timeout_counter = 61 - 1 ∧
    (run (boot 16000000 0x2A [])
      [Event.tick, Event.idle, Event.tick, Event.tick]).timeout_counter ≤ 61 ∧
    (run (run (boot 16000000 0x2A []) (List.replicate 61 Event.tick))
      [Event.tick, Event.tick]).timeout_counter = 0 :=
  ⟨(timeout_counter_never_increases.1 (boot 16000000 0x2A []) (by decide)).1,
   timeout_counter_never_increases.2.2.2.2.2.2.2.1 (boot 16000000 0x2A []) _,
   timeout_counter_never_increases.2.2.2.2.2.2.2.2
     (run (boot 16000000 0x2A []) (List.replicate 61 Event.tick)) _ rfl⟩

/-! ## Time-out in the first poll loop -/

/-- C10, counterexample to the claim as stated: on a 16 MHz device
`TIMER_ROUNDTRIPS_SECOND` is 61, and `set_timeout` called in the state in which the
counter has run down to 0 leaves the counter 0. -/
theorem set_timeout_does_not_reset_counter :
    TIMER_ROUNDTRIPS_SECOND 16000000 = 61 ∧
    (run (boot 16000000 0x2A []) (List.replicate 61 Event.tick)).timeout_counter = 0 ∧
    (set_timeout
      (run (boot 16000000 0x2A []) (List.replicate 61 Event.tick))).timeout_counter = 0 := by
  refine ⟨rfl, rfl, rfl⟩

/-- C10, as the code behaves: for every state before the call, `set_timeout` configures
the tick source (compare value 0xFF, CTC mode bit `WGM01` set, prescaler 1024 selected by
`CS00` and `CS02`, compare interrupt enabled) and leaves `timeout_counter` as it is.  The
counter holds `TIMER_ROUNDTRIPS_SECOND` (as an 8-bit value) when `main` reaches its first
poll loop, after its call of `set_timeout`, by the initialiser of line 42. -/
theorem set_timeout_configures_tick_source (s : Sys) :
    (set_timeout s).OCR0A = 0xFF ∧
    (set_timeout s).TCCR0A = s.TCCR0A ||| (1 <<< WGM01) ∧
    (set_timeout s).TCCR0A.testBit WGM01 = true ∧
    (set_timeout s).TCCR0B = 5 ∧
    (set_timeout s).TIMSK0 = s.TIMSK0 ||| (1 <<< OCIE0A) ∧
    (set_timeout s).TIMSK0.testBit OCIE0A = true ∧
    (set_timeout s).timeout_counter = s.timeout_counter ∧
    (∀ F_CPU eeprom0 : Nat, ∀ buf0 : List Nat,
      (boot F_CPU eeprom0 buf0).timeout_counter = TIMER_ROUNDTRIPS_SECOND F_CPU % 256 ∧
      (boot F_CPU eeprom0 buf0).OCR0A = 0xFF ∧
      (boot F_CPU eeprom0 buf0).TCCR0B = 5 ∧
      (boot F_CPU eeprom0 buf0).TIMSK0.testBit OCIE0A = true) := by
  refine ⟨rfl, rfl, ?_, rfl, rfl, ?_, rfl, ?_⟩
  · show (s.TCCR0A ||| 2).testBit 1 = true
    rw [Nat.testBit_or]
    have h1 : Nat.testBit 2 1 = true := by decide
    rw [h1, Bool.or_true]
  · show (s.TIMSK0 ||| 2).testBit 1 = true
    rw [Nat.testBit_or]
    have h1 : Nat.testBit 2 1 = true := by decide
    rw [h1, Bool.or_true]
  · intro F_CPU eeprom0 buf0
    refine ⟨rfl, rfl, rfl, ?_⟩
    show Nat.testBit (0 ||| (1 <<< 1)) 1 = true
    decide

/-! ## More on the line-receive loop -/

/-- What one step appends to the log, and what it does to the loop index and the buffer
length, when the loop index is below its bound before the step. -/
theorem step_stores_in_bounds (s : Sys) (e : Event)
    (hidx : ∀ i, s.pc = PC.receive i → i < INTEL_HEX_MAX_LINE_LENGTH - 1) :
    (∀ i, (step s e).pc = PC.receive i → i < INTEL_HEX_MAX_LINE_LENGTH - 1) ∧
    (step s e).hex_receive_buffer.length = s.hex_receive_buffer.length ∧
    ∃ new, (step s e).log = s.log ++ new ∧
      ∀ i b, Act.store i b ∈ new → i < INTEL_HEX_MAX_LINE_LENGTH - 1 := by
  cases hpc : s.pc with
  | application =>
    have hs : step s e = s := by simp [step, hpc]
    rw [hs]
    exact ⟨hidx, rfl, [], by simp, by simp⟩
  | awaitBroadcast =>
    cases e with
    | tick =>
      by_cases hc : s.timeout_counter > 0 <;>
        simp [step, hpc, ISR_TIMER0_COMPA, hc]
    | idle =>
      by_cases hc : s.timeout_counter ≤ 0 <;>
        simp [step, hpc, hc, start_application, Sys.setTWCR, Sys.setTWAR, Sys.setMCUCR,
          Sys.emit]
    | bus st d =>
      by_cases hs : st = TW_SR_GCALL_ACK <;>
        simp [step, hpc, hs, start_application, Sys.setTWCR, Sys.setTWAR, Sys.setMCUCR,
          Sys.emit]
  | awaitCommand =>
    cases e with
    | tick =>
      by_cases hc : s.timeout_counter > 0 <;>
        simp [step, hpc, ISR_TIMER0_COMPA, hc]
    | idle =>
      by_cases hc : s.timeout_counter ≤ 0 <;>
        simp [step, hpc, hc, start_application, Sys.setTWCR, Sys.setTWAR, Sys.setMCUCR,
          Sys.emit]
    | bus st d =>
      by_cases hs : ¬ (st = TW_SR_GCALL_DATA_ACK) ∨ d ≠ FIRMWARE_UPDATE_COMMAND
      · simp [step, hpc, hs, start_application, Sys.setTWCR, Sys.setTWAR, Sys.setMCUCR,
          Sys.emit]
      · simp only [step, hpc, hs, if_false, next_line, Sys.setTWCR, Sys.setTWAR, Sys.emit]
        simp
  | awaitLine =>
    cases e with
    | tick =>
      by_cases hc : s.timeout_counter > 0 <;>
        simp [step, hpc, ISR_TIMER0_COMPA, hc]
    | idle => simp [step, hpc]
    | bus st d =>
      by_cases hs : st = TW_SR_SLA_ACK
      · simp [step, hpc, hs, INTEL_HEX_MAX_LINE_LENGTH]
      · simp [step, hpc, hs, next_line, Sys.setTWCR]
  | receive j =>
    have hj := hidx j hpc
    cases e with
    | tick =>
      by_cases hc : s.timeout_counter > 0 <;>
        simp [step, hpc, ISR_TIMER0_COMPA, hc, hj]
    | idle => simp [step, hpc, hj]
    | bus st d =>
      simp only [step, hpc, receive_iteration, receive_store, line_done, next_line,
        Sys.setTWCR, Sys.emit]
      split_ifs <;> simp_all

/-- The same along a sequence of events. -/
theorem run_stores_in_bounds (evs : List Event) :
    ∀ s : Sys, (∀ i, s.pc = PC.receive i → i < INTEL_HEX_MAX_LINE_LENGTH - 1) →
      (run s evs).hex_receive_buffer.length = s.hex_receive_buffer.length ∧
      ∃ new, (run s evs).log = s.log ++ new ∧
        ∀ i b, Act.store i b ∈ new → i < INTEL_HEX_MAX_LINE_LENGTH - 1 := by
  induction evs with
  | nil => intro s _; exact ⟨rfl, [], by simp [run], by simp⟩
  | cons e evs ih =>
    intro s hidx
    obtain ⟨h1, h2, n1, h3, h4⟩ := step_stores_in_bounds s e hidx
    obtain ⟨k2, n2, k3, k4⟩ := ih (step s e) h1
    rw [run_cons]
    refine ⟨k2.trans h2, n1 ++ n2, ?_, ?_⟩
    · rw [k3, h3, List.append_assoc]
    · intro i b hm
      rcases List.mem_append.mp hm with hm | hm
      · exact h4 i b hm
      · exact k4 i b hm

/-- C12: from every state in which the loop index, if the main flow is in the receive
loop, is below the loop bound (so from the state `main` starts in and from every state it
reaches), and for every sequence of events, every store the run appends to the log,
`hex_receive_buffer[i] = b`, has `i <= 44`, strictly below the capacity 46; the buffer
keeps its length. -/
theorem receive_buffer_writes_in_bounds (s : Sys) (evs : List Event)
    (hidx : ∀ i, s.pc = PC.receive i → i < INTEL_HEX_MAX_LINE_LENGTH - 1) :
    (run s evs).hex_receive_buffer.length = s.hex_receive_buffer.length ∧
    ∃ new, (run s evs).log = s.log ++ new ∧
      ∀ i b, Act.store i b ∈ new → i ≤ 44 ∧ i < INTEL_HEX_MAX_LINE_LENGTH := by
  obtain ⟨h1, new, h2, h3⟩ := run_stores_in_bounds evs s hidx
  refine ⟨h1, new, h2, ?_⟩
  intro i b hm
  have := h3 i b hm
  simp only [INTEL_HEX_MAX_LINE_LENGTH] at this ⊢
  omega

/-- Witness for C12: `sample_line_state` has loop index 0, and the buffer is 46 bytes long
after the line 'O', 'K', carriage return. -/
theorem receive_buffer_writes_in_bounds_witness :
    (∀ i, sample_line_state.pc = PC.receive i → i < INTEL_HEX_MAX_LINE_LENGTH - 1) ∧
    (run sample_line_state ok_line).hex_receive_buffer.length = 46 := by
  have hidx : ∀ i, sample_line_state.pc = PC.receive i → i < INTEL_HEX_MAX_LINE_LENGTH - 1 := by
    intro i h
    have h1 : sample_line_state.pc = PC.receive 0 := rfl
    rw [h1] at h
    rw [← PC.receive.inj h]
    decide
  exact ⟨hidx, (receive_buffer_writes_in_bounds sample_line_state ok_line hidx).1⟩

/-- C13: for every byte `b` received with status `TW_SR_DATA_ACK` in iteration `i`, the
loop stores `b` at index `i` and then writes to `TWCR` a value that has the acknowledge
bit `TWEA` set iff `b` is not the carriage return: `(1<<TWINT)|(1<<TWEN)|(1<<TWEA)` for
every other byte, `(1<<TWINT)|(1<<TWEN)` for the terminator.  In the step of the main flow
these two entries come first, and the only value written to `TWCR` after them is the one of
line 194 at the next loop head. -/
theorem data_ack_reply (s : Sys) (i b : Nat) :
    (receive_store s i TW_SR_DATA_ACK b).log =
      s.log ++ [Act.store i b, Act.TWCR (if b = CR then TWCR_NACK else TWCR_ACK)] ∧
    (receive_store s i TW_SR_DATA_ACK b).TWCR = (if b = CR then TWCR_NACK else TWCR_ACK) ∧
    ((if b = CR then TWCR_NACK else TWCR_ACK).testBit TWEA = true ↔ b ≠ CR) ∧
    (s.pc = PC.receive i → ∃ tail,
      (step s (Event.bus TW_SR_DATA_ACK b)).log = s.log ++
        Act.store i b :: Act.TWCR (if b = CR then TWCR_NACK else TWCR_ACK) :: tail ∧
      ∀ v, Act.TWCR v ∈ tail → v = TWCR_RELEASE) := by
  have hne : ¬ (TW_SR_DATA_ACK = TW_SR_DATA_NACK) := by decide
  refine ⟨?_, ?_, ?_, ?_⟩
  · by_cases hb : b = CR <;> simp [receive_store, hb, Sys.setTWCR]
  · by_cases hb : b = CR <;> simp [receive_store, hb, Sys.setTWCR]
  · by_cases hb : b = CR
    · simp only [hb, if_true]
      have : TWCR_NACK.testBit TWEA = false := by decide
      simp [this]
    · simp only [hb, if_false]
      have : TWCR_ACK.testBit TWEA = true := by decide
      simp [this, hb]
  · intro hpc
    rw [step_at_receive s i _ _ hpc]
    by_cases hb : b = CR <;> by_cases hi : i + 1 < INTEL_HEX_MAX_LINE_LENGTH - 1 <;>
      simp [receive_iteration, receive_store, hb, hi, hne, Sys.setTWCR, line_done, next_line,
        Sys.emit]

/-- C17: in an iteration of the receive loop with any index `i`, when `TWSR` reads
`TW_SR_DATA_NACK` the loop is left by the break with index `i`: nothing is stored (the
buffer is as before and is handed to `uart_send` like that), and the main flow is back at
the poll of line 195, so that the next bus event, whatever it is, is taken as the start
of a line and stores nothing. -/
theorem data_nack_stops_reception (s : Sys) (i d : Nat) (hpc : s.pc = PC.receive i) :
    (step s (Event.bus TW_SR_DATA_NACK d)).pc = PC.awaitLine ∧
    (step s (Event.bus TW_SR_DATA_NACK d)).hex_receive_buffer = s.hex_receive_buffer ∧
    (step s (Event.bus TW_SR_DATA_NACK d)).log = s.log ++
      [Act.leave i ExitKind.nackBreak, Act.uart_send_buffer s.hex_receive_buffer,
       Act.uart_send Msg.crlf, Act.TWCR TWCR_RELEASE] ∧
    (∀ st2 d2 : Nat,
      (step (step s (Event.bus TW_SR_DATA_NACK d)) (Event.bus st2 d2)).hex_receive_buffer =
        s.hex_receive_buffer ∧
      ∀ j b, Act.store j b ∈ (step (step s (Event.bus TW_SR_DATA_NACK d))
        (Event.bus st2 d2)).log → Act.store j b ∈ s.log) := by
  have hne : ¬ (TW_SR_DATA_NACK = TW_SR_DATA_ACK) := by decide
  have h1 : step s (Event.bus TW_SR_DATA_NACK d) = line_done s i ExitKind.nackBreak := by
    rw [step_at_receive s i _ _ hpc]
    simp [receive_iteration, receive_store, hne]
  rw [h1]
  have hpc2 : (line_done s i ExitKind.nackBreak).pc = PC.awaitLine := by
    simp [line_done, next_line, Sys.setTWCR, Sys.emit]
  refine ⟨hpc2, by simp [line_done, next_line, Sys.setTWCR, Sys.emit],
    by simp [line_done, next_line, Sys.setTWCR, Sys.emit], ?_⟩
  intro st2 d2
  rw [step_at_awaitLine _ _ _ hpc2]
  by_cases hs : st2 = TW_SR_SLA_ACK <;>
    simp [hs, line_done, next_line, Sys.setTWCR, Sys.emit]

/-- C19: an iteration of the receive loop whose status is neither `TW_SR_DATA_ACK` nor
`TW_SR_DATA_NACK` changes nothing but the loop index: the log (no store, no write to
`TWCR`), `TWCR` and the buffer are as before, and the loop polls with index `i + 1`.  A
byte that then arrives with `TW_SR_DATA_ACK` is stored at index `i + 1`, and index `i`
keeps the content it had.  In the last iteration (`i = 44`) the index still advances, and
the loop is left by its bound with index 45. -/
theorem other_status_skips_index (s : Sys) (i st d b : Nat) (hpc : s.pc = PC.receive i)
    (hack : st ≠ TW_SR_DATA_ACK) (hnack : st ≠ TW_SR_DATA_NACK) :
    (i + 1 < INTEL_HEX_MAX_LINE_LENGTH - 1 →
      step s (Event.bus st d) = { s with pc := PC.receive (i + 1) } ∧
      (step s (Event.bus st d)).log = s.log ∧
      (step s (Event.bus st d)).TWCR = s.TWCR ∧
      (step s (Event.bus st d)).hex_receive_buffer = s.hex_receive_buffer ∧
      (run s [Event.bus st d, Event.bus TW_SR_DATA_ACK b]).hex_receive_buffer =
        s.hex_receive_buffer.set (i + 1) b ∧
      (run s [Event.bus st d, Event.bus TW_SR_DATA_ACK b]).hex_receive_buffer.getD i 0 =
        s.hex_receive_buffer.getD i 0 ∧
      ∃ tail, (run s [Event.bus st d, Event.bus TW_SR_DATA_ACK b]).log = s.log ++
        Act.store (i + 1) b :: Act.TWCR (if b = CR then TWCR_NACK else TWCR_ACK) :: tail) ∧
    (¬ (i + 1 < INTEL_HEX_MAX_LINE_LENGTH - 1) →
      step s (Event.bus st d) = line_done s (i + 1) ExitKind.bound) := by
  have hne : ¬ (TW_SR_DATA_ACK = TW_SR_DATA_NACK) := by decide
  constructor
  · intro hi
    have h1 : step s (Event.bus st d) = { s with pc := PC.receive (i + 1) } := by
      rw [step_at_receive s i _ _ hpc]
      simp [receive_iteration, receive_store, hack, hnack, hi]
    have h2 : run s [Event.bus st d, Event.bus TW_SR_DATA_ACK b] =
        receive_iteration { s with pc := PC.receive (i + 1) } (i + 1) TW_SR_DATA_ACK b := by
      rw [run_cons, run_cons, run_nil, h1, step_at_receive _ (i + 1) _ _ rfl]
    refine ⟨h1, by rw [h1], by rw [h1], by rw [h1], ?_, ?_, ?_⟩
    · rw [h2]
      by_cases hb : b = CR <;> by_cases hj : i + 1 + 1 < INTEL_HEX_MAX_LINE_LENGTH - 1 <;>
        simp [receive_iteration, receive_store, hb, hj, hne, Sys.setTWCR, line_done,
          next_line, Sys.emit]
    · rw [h2]
      have hset : (s.hex_receive_buffer.set (i + 1) b).getD i 0 =
          s.hex_receive_buffer.getD i 0 := by
        simp [List.getD_eq_getElem?_getD, List.getElem?_set]
      by_cases hb : b = CR <;> by_cases hj : i + 1 + 1 < INTEL_HEX_MAX_LINE_LENGTH - 1 <;>
        simp [receive_iteration, receive_store, hb, hj, hne, Sys.setTWCR, line_done,
          next_line, Sys.emit, hset]
    · rw [h2]
      by_cases hb : b = CR <;> by_cases hj : i + 1 + 1 < INTEL_HEX_MAX_LINE_LENGTH - 1 <;>
        simp [receive_iteration, receive_store, hb, hj, hne, Sys.setTWCR, line_done,
          next_line, Sys.emit]
  · intro hi
    rw [step_at_receive s i _ _ hpc]
    simp [receive_iteration, receive_store, hack, hnack, hi]

/-- Witness for C13: the terminator is answered without `TWEA`, the byte 'O' with it. -/
theorem data_ack_reply_witness :
    sample_line_state.pc = PC.receive 0 ∧
    (receive_store sample_line_state 0 TW_SR_DATA_ACK CR).TWCR = TWCR_NACK ∧
    (receive_store sample_line_state 0 TW_SR_DATA_ACK 79).TWCR = TWCR_ACK :=
  ⟨rfl, (data_ack_reply sample_line_state 0 CR).2.1, (data_ack_reply sample_line_state 0 79).2.1⟩

/-- Witness for C17: after 'O', 'K', carriage return the loop polls with index 3, and
`TW_SR_DATA_NACK` takes the main flow back to line 195. -/
theorem data_nack_stops_reception_witness :
    (run sample_line_state ok_line).pc = PC.receive 3 ∧
    (step (run sample_line_state ok_line) (Event.bus TW_SR_DATA_NACK 10)).pc = PC.awaitLine :=
  ⟨rfl, (data_nack_stops_reception (run sample_line_state ok_line) 3 10 rfl).1⟩

/-- Witness for C19: a stop status in iteration 0, then the byte 'O': it is stored at
index 1. -/
theorem other_status_skips_index_witness :
    sample_line_state.pc = PC.receive 0 ∧ TW_SR_STOP ≠ TW_SR_DATA_ACK ∧
    TW_SR_STOP ≠ TW_SR_DATA_NACK ∧ 0 + 1 < INTEL_HEX_MAX_LINE_LENGTH - 1 ∧
    (run sample_line_state
      [Event.bus TW_SR_STOP 0, Event.bus TW_SR_DATA_ACK 79]).hex_receive_buffer =
      sample_line_state.hex_receive_buffer.set (0 + 1) 79 :=
  ⟨rfl, by decide, by decide, by decide,
   ((other_status_skips_index sample_line_state 0 TW_SR_STOP 0 79 rfl (by decide)
     (by decide)).1 (by decide)).2.2.2.2.1⟩

/-! ## Lines as long as the buffer -/

theorem stores_append (l1 l2 : List Act) : stores (l1 ++ l2) = stores l1 ++ stores l2 := by
  induction l1 with
  | nil => rfl
  | cons a l ih => cases a <;> simp [stores, ih]

theorem stores_store_log (l : List Nat) : ∀ i : Nat,
    stores (store_log i l) = (List.range' i l.length).zip l := by
  induction l with
  | nil => intro i; simp [store_log, stores]
  | cons b l ih => intro i; simp [store_log, stores, ih, List.range'_succ]

/-- A line of 45 bytes other than the terminator, each with `TW_SR_DATA_ACK`, from the
start of the receive loop. -/
theorem run_full_line (s : Sys) (bytes : List Nat)
    (hpc : s.pc = PC.receive 0)
    (hlen : s.hex_receive_buffer.length = INTEL_HEX_MAX_LINE_LENGTH)
    (hn : bytes.length = INTEL_HEX_MAX_LINE_LENGTH - 1) (hcr : ∀ b ∈ bytes, b ≠ CR) :
    (run s (bytes.map (Event.bus TW_SR_DATA_ACK))).pc = PC.awaitLine ∧
    (run s (bytes.map (Event.bus TW_SR_DATA_ACK))).hex_receive_buffer =
      bytes ++ s.hex_receive_buffer.drop 45 ∧
    (run s (bytes.map (Event.bus TW_SR_DATA_ACK))).log = s.log ++ store_log 0 bytes ++
      [Act.leave 45 ExitKind.bound,
       Act.uart_send_buffer (bytes ++ s.hex_receive_buffer.drop 45),
       Act.uart_send Msg.crlf, Act.TWCR TWCR_RELEASE] := by
  have hne : bytes ≠ [] := by
    intro h0; simp [h0, INTEL_HEX_MAX_LINE_LENGTH] at hn
  obtain ⟨init, last, rfl⟩ : ∃ init last, bytes = init ++ [last] :=
    ⟨bytes.dropLast, bytes.getLast hne, (List.dropLast_append_getLast hne).symm⟩
  have hin : init.length = 44 := by
    simp [INTEL_HEX_MAX_LINE_LENGTH] at hn; omega
  have hlast : last ≠ CR := hcr last (by simp)
  obtain ⟨h1, h2, h3⟩ := run_receive_acks init s [] s.hex_receive_buffer
    (by simpa using hpc) (by simp)
    (by simp [hlen, hin, INTEL_HEX_MAX_LINE_LENGTH])
    (by simp [hin, INTEL_HEX_MAX_LINE_LENGTH])
  obtain ⟨r, rest, hdrop⟩ : ∃ r rest, s.hex_receive_buffer.drop 44 = r :: rest := by
    cases hd : s.hex_receive_buffer.drop 44 with
    | nil =>
      have := congrArg List.length hd
      simp [hlen, INTEL_HEX_MAX_LINE_LENGTH] at this
    | cons r rest => exact ⟨r, rest, rfl⟩
  have hdrop45 : s.hex_receive_buffer.drop 45 = rest := by
    have h := congrArg (List.drop 1) hdrop
    simpa [List.drop_drop] using h
  simp only [List.nil_append, List.length_nil, Nat.zero_add, hin, hdrop] at h1 h2 h3
  have hfin : step (run s (init.map (Event.bus TW_SR_DATA_ACK)))
      (Event.bus TW_SR_DATA_ACK last) =
      line_done (receive_store (run s (init.map (Event.bus TW_SR_DATA_ACK))) 44
        TW_SR_DATA_ACK last) 45 ExitKind.bound := by
    have hne1 : ¬ (TW_SR_DATA_ACK = TW_SR_DATA_NACK) := by decide
    rw [step_at_receive _ 44 _ _ h1]
    simp [receive_iteration, hne1, INTEL_HEX_MAX_LINE_LENGTH]
  have hset : (init ++ r :: rest).set 44 last = init ++ last :: rest := by
    rw [← hin]; simp
  have hrunall : run s ((init ++ [last]).map (Event.bus TW_SR_DATA_ACK)) =
      line_done (receive_store (run s (init.map (Event.bus TW_SR_DATA_ACK))) 44
        TW_SR_DATA_ACK last) 45 ExitKind.bound := by
    rw [List.map_append, run_append, ← hfin]; rfl
  rw [hrunall]
  refine ⟨?_, ?_, ?_⟩
  · simp [line_done, next_line, receive_store, Sys.setTWCR, Sys.emit, hlast]
  · simp [line_done, next_line, receive_store, Sys.setTWCR, Sys.emit, hlast, h2, hset,
      hdrop45]
  · simp [line_done, next_line, receive_store, Sys.setTWCR, Sys.emit, hlast, h2, h3, hset,
      hdrop45, store_log_append, store_log, hin]

/-- C14, as the code behaves: for every line of 45 bytes other than the terminator
followed by the carriage return as the 46th byte, each delivered with `TW_SR_DATA_ACK`, the
receive loop stores the 45 bytes at the indices 0..44 and is left by its bound.  The 46th
byte, the terminator, is not stored: it is read at the poll of line 195, is no address
match there, and is answered with writes to `TWCR` only.  Index 45 of the buffer keeps its
content, and the stores of the run are exactly those of the 45 bytes. -/
theorem terminator_as_46th_byte_dropped (s : Sys) (bytes : List Nat)
    (hpc : s.pc = PC.receive 0)
    (hlen : s.hex_receive_buffer.length = INTEL_HEX_MAX_LINE_LENGTH)
    (hn : bytes.length = INTEL_HEX_MAX_LINE_LENGTH - 1) (hcr : ∀ b ∈ bytes, b ≠ CR) :
    (run s (bytes.map (Event.bus TW_SR_DATA_ACK) ++
      [Event.bus TW_SR_DATA_ACK CR])).hex_receive_buffer =
      bytes ++ s.hex_receive_buffer.drop 45 ∧
    (run s (bytes.map (Event.bus TW_SR_DATA_ACK) ++
      [Event.bus TW_SR_DATA_ACK CR])).hex_receive_buffer.drop 45 =
      s.hex_receive_buffer.drop 45 ∧
    (run s (bytes.map (Event.bus TW_SR_DATA_ACK) ++ [Event.bus TW_SR_DATA_ACK CR])).log =
      s.log ++ store_log 0 bytes ++
      [Act.leave 45 ExitKind.bound,
       Act.uart_send_buffer (bytes ++ s.hex_receive_buffer.drop 45),
       Act.uart_send Msg.crlf, Act.TWCR TWCR_RELEASE,
       Act.TWCR TWCR_NACK, Act.TWCR TWCR_RELEASE] ∧
    stores (run s (bytes.map (Event.bus TW_SR_DATA_ACK) ++
      [Event.bus TW_SR_DATA_ACK CR])).log = stores s.log ++ (List.range' 0 45).zip bytes := by
  obtain ⟨h1, h2, h3⟩ := run_full_line s bytes hpc hlen hn hcr
  have hne2 : TW_SR_DATA_ACK ≠ TW_SR_SLA_ACK := by decide
  have hn45 : bytes.length = 45 := by simpa [INTEL_HEX_MAX_LINE_LENGTH] using hn
  have hrun : run s (bytes.map (Event.bus TW_SR_DATA_ACK) ++ [Event.bus TW_SR_DATA_ACK CR]) =
      next_line ((run s (bytes.map (Event.bus TW_SR_DATA_ACK))).setTWCR TWCR_NACK) := by
    rw [run_append, run_cons, run_nil, step_at_awaitLine _ _ _ h1]
    simp [hne2]
  have hbuf : (run s (bytes.map (Event.bus TW_SR_DATA_ACK) ++
      [Event.bus TW_SR_DATA_ACK CR])).hex_receive_buffer =
      bytes ++ s.hex_receive_buffer.drop 45 := by
    rw [hrun]
    simpa [next_line, Sys.setTWCR] using h2
  have hlog : (run s (bytes.map (Event.bus TW_SR_DATA_ACK) ++
      [Event.bus TW_SR_DATA_ACK CR])).log = s.log ++ store_log 0 bytes ++
      [Act.leave 45 ExitKind.bound,
       Act.uart_send_buffer (bytes ++ s.hex_receive_buffer.drop 45),
       Act.uart_send Msg.crlf, Act.TWCR TWCR_RELEASE,
       Act.TWCR TWCR_NACK, Act.TWCR TWCR_RELEASE] := by
    rw [hrun]
    simp [next_line, Sys.setTWCR, h3]
  refine ⟨hbuf, ?_, hlog, ?_⟩
  · rw [hbuf, ← hn45, List.drop_left]
  · rw [hlog]
    simp [stores_append, stores_store_log, stores, hn45]

/-- Witness for C14: from `sample_line_state`, 45 bytes 'A' and the carriage return. -/
theorem terminator_as_46th_byte_dropped_witness :
    sample_line_state.pc = PC.receive 0 ∧
    sample_line_state.hex_receive_buffer.length = INTEL_HEX_MAX_LINE_LENGTH ∧
    (List.replicate 45 65).length = INTEL_HEX_MAX_LINE_LENGTH - 1 ∧
    (∀ b ∈ List.replicate 45 65, b ≠ CR) ∧
    (run sample_line_state long_line).hex_receive_buffer =
      List.replicate 45 65 ++ sample_line_state.hex_receive_buffer.drop 45 :=
  ⟨rfl, rfl, rfl, by decide,
   (terminator_as_46th_byte_dropped sample_line_state (List.replicate 45 65) rfl rfl rfl
     (by decide)).1⟩

/-- C14, counterexample to the claim as stated: the buffer holds 46 bytes 0xFF when 45
bytes 'A' and then the carriage return arrive, each with `TW_SR_DATA_ACK`.  Afterwards the
buffer holds the 45 bytes 'A' and, at index 45, still 0xFF: the terminator is not in it,
46 bytes were delivered and 45 stored. -/
theorem long_line_fills_45_bytes :
    (run sample_line_state long_line).hex_receive_buffer = List.replicate 45 65 ++ [0xFF] ∧
    CR ∉ List.replicate 45 65 ++ [0xFF] ∧
    (run sample_line_state long_line).hex_receive_buffer.getD 45 0 = 0xFF ∧
    (run sample_line_state long_line).pc = PC.awaitLine := by
  refine ⟨rfl, by decide, rfl, rfl⟩

/-! ## The line parser -/

theorem parser_calls_append (l1 l2 : List Act) :
    parser_calls (l1 ++ l2) = parser_calls l1 ++ parser_calls l2 := by
  induction l1 with
  | nil => rfl
  | cons a l ih => cases a <;> simp [parser_calls, ih]

theorem step_parser_calls (s : Sys) (e : Event) :
    parser_calls (step s e).log = parser_calls s.log := by
  cases hpc : s.pc <;> cases e <;>
    simp only [step, hpc, ISR_TIMER0_COMPA, start_application, next_line, line_done,
      receive_iteration, receive_store, Sys.setTWCR, Sys.setTWAR, Sys.setMCUCR, Sys.emit] <;>
    (try split_ifs) <;> simp [parser_calls_append, parser_calls]

theorem run_parser_calls (evs : List Event) :
    ∀ s : Sys, parser_calls (run s evs).log = parser_calls s.log := by
  induction evs with
  | nil => intro s; rfl
  | cons e evs ih => intro s; rw [run_cons, ih, step_parser_calls]

/-- C11, as the code behaves: in the iteration in which the receive loop is left (by the
break on `TW_SR_DATA_NACK` or by its bound), the main flow hands the receive buffer, as the
loop left it, to `uart_send`, then sends carriage return and line feed, and only then
writes `TWCR` for the next iteration and polls at line 195.  No line parser is called, in
this or any other step: along every sequence of events the log gains no parser call. -/
theorem completed_line_goes_to_uart (s : Sys) (i st d : Nat) (hpc : s.pc = PC.receive i)
    (hdone : st = TW_SR_DATA_NACK ∨ ¬ (i + 1 < INTEL_HEX_MAX_LINE_LENGTH - 1)) :
    (∃ j k, (step s (Event.bus st d)).log = (receive_store s i st d).log ++
      [Act.leave j k, Act.uart_send_buffer (receive_store s i st d).hex_receive_buffer,
       Act.uart_send Msg.crlf, Act.TWCR TWCR_RELEASE]) ∧
    (step s (Event.bus st d)).hex_receive_buffer =
      (receive_store s i st d).hex_receive_buffer ∧
    (step s (Event.bus st d)).pc = PC.awaitLine ∧
    (∀ evs : List Event, parser_calls (run s evs).log = parser_calls s.log) := by
  rw [step_at_receive s i _ _ hpc]
  refine ⟨?_, ?_, ?_, fun evs => run_parser_calls evs s⟩
  · rcases hdone with h | h
    · exact ⟨i, ExitKind.nackBreak, by
        simp [receive_iteration, h, line_done, next_line, Sys.setTWCR, Sys.emit]⟩
    · by_cases hn : st = TW_SR_DATA_NACK
      · exact ⟨i, ExitKind.nackBreak, by
          simp [receive_iteration, hn, line_done, next_line, Sys.setTWCR, Sys.emit]⟩
      · exact ⟨i + 1, ExitKind.bound, by
          simp [receive_iteration, hn, h, line_done, next_line, Sys.setTWCR, Sys.emit]⟩
  · rcases hdone with h | h
    · simp [receive_iteration, h, line_done, next_line, Sys.setTWCR, Sys.emit]
    · by_cases hn : st = TW_SR_DATA_NACK <;>
        simp [receive_iteration, hn, h, line_done, next_line, Sys.setTWCR, Sys.emit]
  · rcases hdone with h | h
    · simp [receive_iteration, h, line_done, next_line, Sys.setTWCR, Sys.emit]
    · by_cases hn : st = TW_SR_DATA_NACK <;>
        simp [receive_iteration, hn, h, line_done, next_line, Sys.setTWCR, Sys.emit]

/-- Witness for C11: the line 'O', 'K', carriage return ended by `TW_SR_DATA_NACK`. -/
theorem completed_line_goes_to_uart_witness :
    (run sample_line_state ok_line).pc = PC.receive 3 ∧
    (step (run sample_line_state ok_line) (Event.bus TW_SR_DATA_NACK 10)).pc =
      PC.awaitLine :=
  ⟨rfl, (completed_line_goes_to_uart (run sample_line_state ok_line) 3 TW_SR_DATA_NACK 10
    rfl (Or.inl rfl)).2.2.1⟩

/-- C11, counterexample to the claim as stated: a whole iteration of the update session,
from the address match over the line 'O', 'K', carriage return to the break.  The log
gains the three stores with their replies, the exit of the loop, the two calls of
`uart_send` and the write to `TWCR` of line 194, and nothing else: the line parser is not
called. -/
theorem completed_line_not_parsed :
    parser_calls (run sample_update_state
      (Event.bus TW_SR_SLA_ACK 0 :: ok_line ++ [Event.bus TW_SR_DATA_NACK 10])).log = [] ∧
    handed_buffers (run sample_update_state
      (Event.bus TW_SR_SLA_ACK 0 :: ok_line ++ [Event.bus TW_SR_DATA_NACK 10])).log =
      [79 :: 75 :: 13 :: List.replicate 43 0xFF] ∧
    (run sample_update_state
      (Event.bus TW_SR_SLA_ACK 0 :: ok_line ++ [Event.bus TW_SR_DATA_NACK 10])).log =
      sample_update_state.log ++
        [Act.store 0 79, Act.TWCR TWCR_ACK, Act.store 1 75, Act.TWCR TWCR_ACK,
         Act.store 2 13, Act.TWCR TWCR_NACK, Act.leave 3 ExitKind.nackBreak,
         Act.uart_send_buffer (79 :: 75 :: 13 :: List.replicate 43 0xFF),
         Act.uart_send Msg.crlf, Act.TWCR TWCR_RELEASE] ∧
    (run sample_update_state
      (Event.bus TW_SR_SLA_ACK 0 :: ok_line ++ [Event.bus TW_SR_DATA_NACK 10])).pc =
      PC.awaitLine := by
  refine ⟨rfl, rfl, rfl, rfl⟩

/-! ## `start_application` -/

theorem testBit_253 (k : Nat) (hk : k < 8) (hne : k ≠ 1) : Nat.testBit 253 k = true := by
  interval_cases k <;> first | exact absurd rfl hne | decide

/-- C15: for every register state at entry, `start_application` writes 0 to `TWAR` and to
`TWCR`, switching the bus peripheral off, and writes `MCUCR` twice, first the entry value
without `IVCE`, then the entry value without `IVSEL`.  `MCUCR` ends with the bit `IVSEL`
clear and each of its other seven bits as at entry.  The function ends in the
application. -/
theorem start_application_restores_vectors (s : Sys) :
    (start_application s).TWAR = 0 ∧
    (start_application s).TWCR = 0 ∧
    (start_application s).log = s.log ++
      [Act.start_application, Act.MCUCR (clearBit s.MCUCR IVCE),
       Act.MCUCR (clearBit s.MCUCR IVSEL), Act.TWAR 0, Act.TWCR 0, Act.delay_ms 100] ∧
    (start_application s).MCUCR = clearBit s.MCUCR IVSEL ∧
    (start_application s).MCUCR.testBit IVSEL = false ∧
    (∀ k, k < 8 → k ≠ IVSEL →
      (start_application s).MCUCR.testBit k = s.MCUCR.testBit k) ∧
    (start_application s).pc = PC.application := by
  have hm : (start_application s).MCUCR = s.MCUCR &&& 253 := rfl
  refine ⟨rfl, rfl, ?_, rfl, ?_, ?_, rfl⟩
  · simp [start_application, Sys.setTWCR, Sys.setTWAR, Sys.setMCUCR, Sys.emit]
  · rw [hm, Nat.testBit_and]
    have h1 : Nat.testBit 253 IVSEL = false := by decide
    rw [h1, Bool.and_false]
  · intro k hk hne
    rw [hm, Nat.testBit_and, testBit_253 k hk hne, Bool.and_true]

/-! ## The words of `program_page` -/

/-- An iteration more than the loop needs changes nothing. -/
theorem fill_loop_fuel (page : Nat) (buf : List Nat) :
    ∀ (fuel i p : Nat) (t : Sys), SPM_PAGESIZE ≤ i + 2 * fuel →
      fill_loop page buf (fuel + 1) i p t = fill_loop page buf fuel i p t := by
  intro fuel
  induction fuel with
  | zero =>
    intro i p t h
    have hi : ¬ i < SPM_PAGESIZE := by omega
    simp [fill_loop, hi]
  | succ n ih =>
    intro i p t h
    have e1 : ∀ (k : Nat), fill_loop page buf (k + 1) i p t =
        if i < SPM_PAGESIZE then
          fill_loop page buf k (i + 2) (p + 2) (boot_page_fill t ((page + i) % 2 ^ 32)
            ((buf.getD p 0 + (buf.getD (p + 1) 0 <<< 8)) % 65536))
        else t := fun _ => rfl
    rw [e1 (n + 1), e1 n]
    by_cases hi : i < SPM_PAGESIZE
    · rw [if_pos hi, if_pos hi]
      exact ih (i + 2) (p + 2) _ (by omega)
    · rw [if_neg hi, if_neg hi]

theorem fill_loop_enough_fuel (page : Nat) (buf : List Nat) (t : Sys) :
    ∀ fuel, SPM_PAGESIZE / 2 ≤ fuel →
      fill_loop page buf fuel 0 0 t = fill_loop page buf (SPM_PAGESIZE / 2) 0 0 t := by
  intro fuel h
  induction fuel, h using Nat.le_induction with
  | base => rfl
  | succ n hn ih =>
    rw [fill_loop_fuel page buf n 0 0 t (by simp only [SPM_PAGESIZE] at hn ⊢; omega), ih]

/-- The log of `program_page`. -/
theorem program_page_log_eq (s : Sys) (page : Nat) (buf : List Nat) :
    (program_page s page buf).log = s.log ++
      (([SpmOp.eeprom_busy_wait, SpmOp.page_erase page, SpmOp.spm_busy_wait] ++
        fill_ops page buf ++
        [SpmOp.page_write page, SpmOp.spm_busy_wait, SpmOp.rww_enable]).map
        fun op => Act.spm op (clearBit s.SREG SREG_I)) := by
  have hl := fill_loop_log page buf SPM_PAGESIZE 0
    (boot_spm_busy_wait (boot_page_erase (eeprom_busy_wait (cli s)) page))
    (by simp [SPM_PAGESIZE]) (by simp)
  have hs := (fill_loop_frame page buf SPM_PAGESIZE 0 0
    (boot_spm_busy_wait (boot_page_erase (eeprom_busy_wait (cli s)) page))).2.1
  simp only [Nat.mul_zero] at hl
  simp only [program_page, boot_rww_enable, boot_spm_busy_wait, boot_page_write, Sys.emit]
  simp only [boot_spm_busy_wait, Sys.emit] at hl hs
  rw [hl, hs]
  simp [boot_page_erase, eeprom_busy_wait, cli, Sys.emit, fill_ops, List.range_eq_range',
    List.map_map, Function.comp_def]

theorem fill_ops_words (page : Nat) (data : List Nat) (hbytes : ∀ b ∈ data, b < 256) :
    fill_ops page data = (List.range (SPM_PAGESIZE / 2)).map fun k =>
      SpmOp.page_fill ((page + 2 * k) % 2 ^ 32) (fill_word data k) := by
  unfold fill_ops
  apply List.map_congr_left
  intro k _
  have h1 := getD_lt_of_bytes data hbytes (2 * k)
  have h2 := getD_lt_of_bytes data hbytes (2 * k + 1)
  simp only [fill_word, Nat.shiftLeft_eq]
  congr 1
  omega

/-- C16: for every buffer `data` of SPM_PAGESIZE bytes, `program_page` issues, between the
page erase and the page write, exactly SPM_PAGESIZE/2 page fills, the k-th (k = 0, 1, ...)
at the address `page + 2k` as the C expression of type `uint32_t` gives it (equal to
`page + 2k` whenever the page lies inside the 32-bit address range), with the word
`data[2k] + 256 * data[2k+1]`.  The word is below 65536, its low byte is `data[2k]` and its
high byte `data[2k+1]`; the byte at index j of `data` goes into word j/2 and into no
other, so every byte is used once and in order.  The loop ends after SPM_PAGESIZE/2
iterations: more iterations allowed change nothing. -/
theorem program_page_fills_little_endian_words (s : Sys) (page : Nat) (data : List Nat)
    (hlen : data.length = SPM_PAGESIZE) (hbytes : ∀ b ∈ data, b < 256) :
    (program_page s page data).log = s.log ++
      (([SpmOp.eeprom_busy_wait, SpmOp.page_erase page, SpmOp.spm_busy_wait] ++
        ((List.range (SPM_PAGESIZE / 2)).map fun k =>
          SpmOp.page_fill ((page + 2 * k) % 2 ^ 32) (fill_word data k)) ++
        [SpmOp.page_write page, SpmOp.spm_busy_wait, SpmOp.rww_enable]).map
        fun op => Act.spm op (clearBit s.SREG SREG_I)) ∧
    ((List.range (SPM_PAGESIZE / 2)).map fun k =>
      SpmOp.page_fill ((page + 2 * k) % 2 ^ 32) (fill_word data k)).length =
      SPM_PAGESIZE / 2 ∧
    (page + SPM_PAGESIZE ≤ 2 ^ 32 →
      ∀ k, k < SPM_PAGESIZE / 2 → (page + 2 * k) % 2 ^ 32 = page + 2 * k) ∧
    (∀ k, k < SPM_PAGESIZE / 2 →
      fill_word data k = data.getD (2 * k) 0 + 256 * data.getD (2 * k + 1) 0 ∧
      fill_word data k < 65536 ∧
      fill_word data k % 256 = data.getD (2 * k) 0 ∧
      fill_word data k / 256 = data.getD (2 * k + 1) 0) ∧
    (∀ j, j < data.length →
      j / 2 < SPM_PAGESIZE / 2 ∧
      data.getD j 0 =
        if j % 2 = 0 then fill_word data (j / 2) % 256 else fill_word data (j / 2) / 256) ∧
    (∀ (fuel : Nat) (t : Sys), SPM_PAGESIZE / 2 ≤ fuel →
      fill_loop page data fuel 0 0 t = fill_loop page data (SPM_PAGESIZE / 2) 0 0 t) := by
  refine ⟨?_, by simp, ?_, ?_, ?_, fun fuel t h => fill_loop_enough_fuel page data t fuel h⟩
  · rw [program_page_log_eq, fill_ops_words page data hbytes]
  · intro hp k hk
    apply Nat.mod_eq_of_lt
    simp only [SPM_PAGESIZE] at hp hk
    omega
  · intro k _
    have h1 := getD_lt_of_bytes data hbytes (2 * k)
    have h2 := getD_lt_of_bytes data hbytes (2 * k + 1)
    unfold fill_word
    refine ⟨rfl, by omega, by omega, by omega⟩
  · intro j hjl
    have h1 := getD_lt_of_bytes data hbytes (2 * (j / 2))
    have h2 := getD_lt_of_bytes data hbytes (2 * (j / 2) + 1)
    refine ⟨by rw [hlen] at hjl; simp only [SPM_PAGESIZE] at hjl ⊢; omega, ?_⟩
    by_cases hj : j % 2 = 0
    · have e : 2 * (j / 2) = j := by omega
      rw [if_pos hj]
      simp only [fill_word]
      rw [e] at h1 ⊢
      omega
    · have e : 2 * (j / 2) + 1 = j := by omega
      rw [if_neg hj]
      simp only [fill_word]
      rw [e] at h2 ⊢
      omega

/-- Witness for C16: a page of 128 bytes 0x5A; its first word is below 65536. -/
theorem program_page_fills_little_endian_words_witness :
    (List.replicate 128 0x5A).length = SPM_PAGESIZE ∧
    (∀ b ∈ List.replicate 128 0x5A, b < 256) ∧
    fill_word (List.replicate 128 0x5A) 0 < 65536 :=
  ⟨by simp [SPM_PAGESIZE], by simp,
   ((program_page_fills_little_endian_words (power_on []) 256 (List.replicate 128 0x5A)
     (by simp [SPM_PAGESIZE]) (by simp)).2.2.2.1 0 (by decide)).2.1⟩

/-! ## The length of the countdown -/

/-- C18: with N = `TIMER_ROUNDTRIPS_SECOND` = (F_CPU/1024)/255 in integer arithmetic, for
every F_CPU: 261120 * N <= F_CPU < 261120 * (N + 1).  `set_timeout` makes timer 0 tick
every 1024 * 256 CPU cycles, so N ticks last N * 1024 * 256 cycles, which is at most
256/255 of the F_CPU cycles of a second and short of that by less than one tick.  For
F_CPU below 66846720, N is below 256 and the 8-bit `timeout_counter` starts at N itself. -/
theorem countdown_lasts_about_a_second (F_CPU : Nat) :
    261120 * TIMER_ROUNDTRIPS_SECOND F_CPU ≤ F_CPU ∧
    F_CPU < 261120 * (TIMER_ROUNDTRIPS_SECOND F_CPU + 1) ∧
    (∀ s : Sys, tick_cycles (set_timeout s) = 1024 * 256) ∧
    255 * (TIMER_ROUNDTRIPS_SECOND F_CPU * (1024 * 256)) ≤ 256 * F_CPU ∧
    256 * F_CPU < 255 * ((TIMER_ROUNDTRIPS_SECOND F_CPU + 1) * (1024 * 256)) ∧
    (F_CPU < 66846720 →
      TIMER_ROUNDTRIPS_SECOND F_CPU < 256 ∧
      ∀ s : Sys, (crt_init F_CPU s).timeout_counter = TIMER_ROUNDTRIPS_SECOND F_CPU) := by
  have hN : TIMER_ROUNDTRIPS_SECOND F_CPU = F_CPU / 1024 / 255 := rfl
  refine ⟨by omega, by omega, fun s => rfl, by omega, by omega, ?_⟩
  intro h
  have hlt : TIMER_ROUNDTRIPS_SECOND F_CPU < 256 := by omega
  refine ⟨hlt, fun s => ?_⟩
  show TIMER_ROUNDTRIPS_SECOND F_CPU % 256 = TIMER_ROUNDTRIPS_SECOND F_CPU
  exact Nat.mod_eq_of_lt hlt

/-- Witness for C18: a 16 MHz device. -/
theorem countdown_lasts_about_a_second_witness :
    (16000000 : Nat) < 66846720 ∧ TIMER_ROUNDTRIPS_SECOND 16000000 < 256 ∧
    261120 * TIMER_ROUNDTRIPS_SECOND 16000000 ≤ 16000000 :=
  ⟨by decide, ((countdown_lasts_about_a_second 16000000).2.2.2.2.2 (by decide)).1,
   (countdown_lasts_about_a_second 16000000).1⟩

end Millionboot
